import Mathlib

/-!
Verification development for the Mini A2A Marketplace Simulator core:
the mock ledger (src/ledger/mock_ledger.py), the RL negotiator
(src/ai/rl_negotiation.py) and the bandit selectors
(src/ai/bandit_selection.py), shallowly embedded in Lean.

Modelling conventions, used throughout:
* Python `dict`s are association lists `List (String × α)` with
  first-occurrence lookup; assignment `d[k] = v` replaces the first
  occurrence of `k` or appends a fresh entry at the end, and `d.pop(k)`
  removes the first occurrence — on states whose keys are unique (every
  state a Python `dict` can be in) these coincide exactly with `dict`
  semantics.
* Python `int` is `Int`; Python `float` is `ℚ`.  All float literals
  appearing in the source (0.8, 1.2, 3.0, 4.5, 0.3, 0.7, 0.1, 0.9) are
  modelled by the exact rationals they denote; at every concrete input
  considered here the IEEE-double comparisons of the source and the exact
  rational comparisons agree, because the doubles involved are obtained by
  correct rounding of both sides to the same values.
* Code that can raise (`KeyError` on a missing dict key,
  `ZeroDivisionError`) is modelled with `Option`/`Except`: the `error`
  state of an `Except` is the state of the object at the moment the
  exception escapes (Python mutations performed before the raise persist).
* Values drawn from the environment — `random.random()`, `random.choice`,
  wall-clock derived lock ids — are explicit parameters (oracles).  In
  particular `lock_funds` takes the generated lock id as an argument; the
  source computes it as `f"lock_{int(time.time())}_{hash(purpose) % 10000}"`,
  so two calls in the same second with the same purpose string receive the
  same id.
-/

/-! ## Association-list (Python dict) primitives -/

/-- First-occurrence lookup, `d.get(k)` / `d[k]`. -/
def lookupKey {α : Type} : List (String × α) → String → Option α
  | [], _ => none
  | (k', v) :: t, k => if k = k' then some v else lookupKey t k

/-- Python `d[k] = v`: replace the first occurrence of `k`, else append. -/
def setKey {α : Type} : List (String × α) → String → α → List (String × α)
  | [], k, v => [(k, v)]
  | (k', v') :: t, k, v => if k = k' then (k, v) :: t else (k', v') :: setKey t k v

/-- Python `d.pop(k)`: drop the first occurrence of `k`. -/
def eraseKey {α : Type} : List (String × α) → String → List (String × α)
  | [], _ => []
  | (k', v) :: t, k => if k = k' then t else (k', v) :: eraseKey t k

/-- Sum of a valuation over all entries of an association list. -/
def sumBy {α : Type} (f : α → Int) (l : List (String × α)) : Int :=
  (l.map (fun p => f p.2)).sum

/-! ## Ledger (src/ledger/mock_ledger.py) -/

/-- An escrow lock entry of `MockLedger.locked_funds` (the wall-clock
`timestamp` field is metadata never read by any operation and is omitted). -/
structure Lock where
  agent : String
  amount : Int
  purpose : String
deriving DecidableEq, Repr

/-- A `Transaction` record (the wall-clock `timestamp` and the hash-derived
`tx_id`, metadata never read by any ledger operation, are omitted). -/
structure Transaction where
  sender : String
  receiver : String
  amount : Int
  service : Option String
deriving DecidableEq, Repr

/-- The `MockLedger` state. -/
structure MockLedger where
  accounts : List (String × Int)
  locked_funds : List (String × Lock)
  transaction_history : List Transaction
deriving DecidableEq, Repr

/-- Source `MockLedger.__init__`. -/
def MockLedger.new : MockLedger := ⟨[], [], []⟩

/-- Source `get_balance`: `self.accounts.get(agent_name, 0)`. -/
def get_balance (l : MockLedger) (agent_name : String) : Int :=
  (lookupKey l.accounts agent_name).getD 0

/-- Source `create_account`: unconditionally `self.accounts[agent_name] = initial_balance`. -/
def create_account (l : MockLedger) (agent_name : String) (initial_balance : Int) : MockLedger :=
  { l with accounts := setKey l.accounts agent_name initial_balance }

/-- Source `transfer`.  When the guard `self.accounts.get(sender, 0) >= amount`
passes but `sender` has no account (possible only for `amount ≤ 0`), the
statement `self.accounts[sender] -= amount` raises `KeyError` before any
mutation: modelled as `.error` carrying the unchanged state. -/
def transfer (l : MockLedger) (sender receiver : String) (amount : Int)
    (service : Option String) : Except MockLedger (MockLedger × Bool) :=
  if (lookupKey l.accounts sender).getD 0 ≥ amount then
    match lookupKey l.accounts sender with
    | none => .error l
    | some b =>
      let acc1 := setKey l.accounts sender (b - amount)
      let acc2 := setKey acc1 receiver ((lookupKey acc1 receiver).getD 0 + amount)
      .ok ({ accounts := acc2, locked_funds := l.locked_funds,
             transaction_history :=
               l.transaction_history ++ [⟨sender, receiver, amount, service⟩] }, true)
  else .ok (l, false)

/-- Source `lock_funds`.  `lock_id` is the id generated from the wall clock and
`hash(purpose)` (see the module comment); `self.locked_funds[lock_id] = {...}`
overwrites any active lock that already carries this id.  The `KeyError`
of `self.accounts[agent_name] -= amount` for a missing account (possible
only for `amount ≤ 0`) is `.error` with the unchanged state.  Returns
`some lock_id` on success and `none` (Python `None`) on insufficient funds. -/
def lock_funds (l : MockLedger) (agent_name : String) (amount : Int) (purpose : String)
    (lock_id : String) : Except MockLedger (MockLedger × Option String) :=
  if (lookupKey l.accounts agent_name).getD 0 ≥ amount then
    match lookupKey l.accounts agent_name with
    | none => .error l
    | some b =>
      .ok ({ accounts := setKey l.accounts agent_name (b - amount),
             locked_funds := setKey l.locked_funds lock_id ⟨agent_name, amount, purpose⟩,
             transaction_history := l.transaction_history }, some lock_id)
  else .ok (l, none)

/-- Source `release_funds`: pop the lock if active and credit `to_agent`
(`self.accounts.get(to_agent, 0) + ...` — never raises). -/
def release_funds (l : MockLedger) (lock_id to_agent : String) : MockLedger × Bool :=
  match lookupKey l.locked_funds lock_id with
  | some lk =>
      ({ accounts := setKey l.accounts to_agent
            ((lookupKey l.accounts to_agent).getD 0 + lk.amount),
         locked_funds := eraseKey l.locked_funds lock_id,
         transaction_history := l.transaction_history }, true)
  | none => (l, false)

/-- Source `return_locked_funds`: pop the lock if active and credit the original
owner via the raw index `self.accounts[locked['agent']] += ...`.  If the
owner has no account (impossible in states reachable from `MockLedger.new`)
the raise happens after the pop, so the `.error` state has the lock
already removed. -/
def return_locked_funds (l : MockLedger) (lock_id : String) :
    Except MockLedger (MockLedger × Bool) :=
  match lookupKey l.locked_funds lock_id with
  | some lk =>
      match lookupKey l.accounts lk.agent with
      | none => .error { l with locked_funds := eraseKey l.locked_funds lock_id }
      | some b =>
        .ok ({ accounts := setKey l.accounts lk.agent (b + lk.amount),
               locked_funds := eraseKey l.locked_funds lock_id,
               transaction_history := l.transaction_history }, true)
  | none => .ok (l, false)

/-- Total supply as computed by `get_ledger_stats`:
`sum(self.accounts.values()) + sum(lock['amount'] for lock in self.locked_funds.values())`. -/
def totalSupply (l : MockLedger) : Int :=
  sumBy id l.accounts + sumBy Lock.amount l.locked_funds

/-- The ledger state an operation leaves behind, whether it returns or raises. -/
def stateOf {β : Type} : Except MockLedger (MockLedger × β) → MockLedger
  | .error l => l
  | .ok (l, _) => l

/-- One ledger call with all its arguments (the generated lock id of a
`lock_funds` call included, since it comes from the environment). -/
inductive LedgerOp where
  | create (agent_name : String) (initial_balance : Int)
  | transferOp (sender receiver : String) (amount : Int) (service : Option String)
  | lockOp (agent_name : String) (amount : Int) (purpose lock_id : String)
  | releaseOp (lock_id to_agent : String)
  | returnOp (lock_id : String)
deriving DecidableEq, Repr

/-- The state after one call (the post-exception state if the call raised). -/
def applyOp (l : MockLedger) : LedgerOp → MockLedger
  | .create a i => create_account l a i
  | .transferOp s r amt svc => stateOf (transfer l s r amt svc)
  | .lockOp a amt p lid => stateOf (lock_funds l a amt p lid)
  | .releaseOp lid toA => (release_funds l lid toA).1
  | .returnOp lid => stateOf (return_locked_funds l lid)

/-- The state after a sequence of calls. -/
def runOps (l : MockLedger) (ops : List LedgerOp) : MockLedger :=
  ops.foldl applyOp l

/-- Argument restriction: no negative amounts or initial balances. -/
def opNonneg : LedgerOp → Prop
  | .create _ i => 0 ≤ i
  | .transferOp _ _ amt _ => 0 ≤ amt
  | .lockOp _ amt _ _ => 0 ≤ amt
  | .releaseOp _ _ => True
  | .returnOp _ => True

/-- Every balance and every active escrow amount is non-negative. -/
def ledgerNonneg (l : MockLedger) : Prop :=
  (∀ p ∈ l.accounts, 0 ≤ p.2) ∧ (∀ p ∈ l.locked_funds, 0 ≤ p.2.amount)

/-- The op does not carry a freshly generated lock id equal to `lid`. -/
def opAvoidsLock (lid : String) : LedgerOp → Prop
  | .lockOp _ _ _ lid' => lid' ≠ lid
  | _ => True

/-- Success/failure flag of an escrow settlement call, `false` if it raised. -/
def settleFlag : Except MockLedger (MockLedger × Bool) → Bool
  | .ok (_, b) => b
  | .error _ => false

/-! ## Negotiator (src/ai/rl_negotiation.py) -/

/-- The four actions of `RLNegotiator.actions`, in their Python list /
dict-insertion order: accept, reject, counter_low, counter_high. -/
inductive NAction where
  | accept
  | reject
  | counter_low
  | counter_high
deriving DecidableEq, Repr

/-- The per-state dict `{action: q_value}`; it always holds exactly the four
actions, created together by `{action: 0.0 for action in self.actions}` and
never extended, so it is modelled as a record (field order = insertion
order). -/
structure ActionValues where
  accept : ℚ
  reject : ℚ
  counter_low : ℚ
  counter_high : ℚ
deriving DecidableEq, Repr

/-- Source `{action: 0.0 for action in self.actions}`. -/
def ActionValues.zero : ActionValues := ⟨0, 0, 0, 0⟩

/-- Read one action's value. -/
def ActionValues.get (v : ActionValues) : NAction → ℚ
  | .accept => v.accept
  | .reject => v.reject
  | .counter_low => v.counter_low
  | .counter_high => v.counter_high

/-- Assign one action's value. -/
def ActionValues.set (v : ActionValues) : NAction → ℚ → ActionValues
  | .accept, x => { v with accept := x }
  | .reject, x => { v with reject := x }
  | .counter_low, x => { v with counter_low := x }
  | .counter_high, x => { v with counter_high := x }

/-- Python `max` of two floats (the larger of the two, the first on ties) —
spelt with an explicit comparison so that concrete states evaluate in the
kernel. -/
def qmax (x y : ℚ) : ℚ := if x < y then y else x

/-- Source `max(self.q_table[next_state].values())`. -/
def ActionValues.maxVal (v : ActionValues) : ℚ :=
  qmax (qmax (qmax v.accept v.reject) v.counter_low) v.counter_high

/-- One step of Python `max(..., key=...)`: keep the current best unless the
next candidate is strictly greater. -/
def pickArg (v : ActionValues) (best a : NAction) : NAction :=
  if v.get a > v.get best then a else best

/-- Source `max(self.q_table[state], key=self.q_table[state].get)`: the first action
in insertion order attaining the maximal value. -/
def ActionValues.argmax (v : ActionValues) : NAction :=
  pickArg v (pickArg v (pickArg v NAction.accept NAction.reject) NAction.counter_low)
    NAction.counter_high

/-- Source `RLNegotiator` state: `q_table` plus the constructor hyperparameters
(defaults 0.1 / 0.9 / 0.1).  `actions` is the fixed `NAction` order and
`negotiation_history` is never used by any method, so both are omitted. -/
structure RLNegotiator where
  q_table : List (String × ActionValues)
  learning_rate : ℚ
  discount_factor : ℚ
  epsilon : ℚ
deriving DecidableEq, Repr

/-- Source `RLNegotiator()` with the default hyperparameters. -/
def RLNegotiator.new : RLNegotiator := ⟨[], 1/10, 9/10, 1/10⟩

/-- Source `if state not in self.q_table: self.q_table[state] = {action: 0.0 ...}`. -/
def ensureState (q : List (String × ActionValues)) (s : String) :
    List (String × ActionValues) :=
  match lookupKey q s with
  | some _ => q
  | none => setKey q s ActionValues.zero

/-- Source `get_state`: bucket the inputs and compose the state string.  The price
ratio is guarded by `max(market_price, 1)`; float literals 0.8, 1.2, 3.0,
4.5, 0.3, 0.7 are the exact rationals. -/
def get_state (service_type : String) (offered_price market_price : Int)
    (agent_reputation urgency : ℚ) : String :=
  let pr : ℚ := (offered_price : ℚ) / ((max market_price 1 : Int) : ℚ)
  let price_category : String :=
    if pr < 4/5 then "low" else if pr < 6/5 then "fair" else "high"
  let reputation_category : String :=
    if agent_reputation < 3 then "low" else if agent_reputation < 9/2 then "medium" else "high"
  let urgency_category : String :=
    if urgency < 3/10 then "low" else if urgency < 7/10 then "medium" else "high"
  service_type ++ "_" ++ price_category ++ "_" ++ reputation_category ++ "_" ++ urgency_category

/-- Source `get_action`: lazily initialise the state's action dict, then ε-greedy.
`rnd` is the value of `random.random()` and `choice` the value of
`random.choice(self.actions)` for this decision point.  Returns the
(possibly extended) negotiator together with the chosen action. -/
def get_action (ng : RLNegotiator) (s : String) (rnd : ℚ) (choice : NAction)
    (explore : Bool) : RLNegotiator × NAction :=
  let q := ensureState ng.q_table s
  let ng' : RLNegotiator := { ng with q_table := q }
  if explore ∧ rnd < ng.epsilon then (ng', choice)
  else (ng', ((lookupKey q s).getD ActionValues.zero).argmax)

/-- Source `update_q_value`: lazily initialise `state` (and `next_state` when one is
given), then
`Q(s,a) ← Q(s,a) + α·(reward + γ·max_next_q − Q(s,a))`
with `max_next_q = max(self.q_table[next_state].values())` when a next state
is given and `0` otherwise. -/
def update_q_value (ng : RLNegotiator) (s : String) (a : NAction) (reward : ℚ)
    (next_state : Option String) : RLNegotiator :=
  let q1 := ensureState ng.q_table s
  let q2 := match next_state with
            | some ns => ensureState q1 ns
            | none => q1
  let current_q := ((lookupKey q2 s).getD ActionValues.zero).get a
  let max_next_q : ℚ :=
    match next_state with
    | some ns => ((lookupKey q2 ns).getD ActionValues.zero).maxVal
    | none => 0
  let new_q := current_q + ng.learning_rate * (reward + ng.discount_factor * max_next_q - current_q)
  { ng with q_table := setKey q2 s (((lookupKey q2 s).getD ActionValues.zero).set a new_q) }

/-- Source `calculate_reward`.  `final_price / market_price` is Python float
division of ints: it raises `ZeroDivisionError` when `market_price == 0`
(modelled as `none`), and is the exact rational quotient otherwise. -/
def calculate_reward (final_price market_price : Int) (deal_made : Bool) : Option ℚ :=
  if !deal_made then some (-1)
  else if market_price = 0 then none
  else
    let pr : ℚ := (final_price : ℚ) / (market_price : ℚ)
    some (if pr > 6/5 then 1 else if pr > 1 then 1/2 else if pr > 4/5 then 0 else -(1/2))

/-- Python `int(...)` truncation toward zero on an exact rational. -/
def pyInt (q : ℚ) : Int := Int.tdiv q.num (q.den : Int)

/-- Source `counter_low`: `current_offer = max(1, int(current_offer * 0.8))`. -/
def counterLowOffer (offer : Int) : Int := max 1 (pyInt ((offer : ℚ) * (4/5)))

/-- Source `counter_high`: `current_offer = int(current_offer * 1.2)`. -/
def counterHighOffer (offer : Int) : Int := pyInt ((offer : ℚ) * (6/5))

/-- The offer transformation performed by an action. -/
def applyCounterAction (offer : Int) : NAction → Int
  | .counter_low => counterLowOffer offer
  | .counter_high => counterHighOffer offer
  | _ => offer

/-- One `update_q_value` call performed during an episode: the arguments the
episode passed (the `next_state` argument included). -/
structure QUpdate where
  state : String
  action : NAction
  reward : ℚ
  next_state : Option String
deriving DecidableEq, Repr

/-- The loop body of `negotiate` over the remaining `round_num` values of
`range(max_rounds)`.  `oracle n` supplies `(random.random(), random.choice)`
for the decision point of round `n`; `d` counts the decision points taken so
far; `tr` logs every `update_q_value` call with its arguments.  Returns
`none` when the episode raises `ZeroDivisionError` in `calculate_reward`. -/
def negotiateGo (service_type : String) (market_price : Int) (agent_reputation : ℚ)
    (max_rounds : ℕ) (oracle : ℕ → ℚ × NAction) :
    List ℕ → Int → RLNegotiator → List QUpdate → ℕ →
    Option (RLNegotiator × List QUpdate × ℕ × String × Int)
  | [], current_offer, ng, tr, d =>
      let final_state := get_state service_type current_offer market_price agent_reputation 1
      match calculate_reward current_offer market_price true with
      | none => none
      | some r =>
          some (update_q_value ng final_state .accept r none,
                tr ++ [⟨final_state, .accept, r, none⟩], d, "accept", current_offer)
  | round_num :: rest, current_offer, ng, tr, d =>
      let urgency : ℚ := (round_num : ℚ) / (max_rounds : ℚ)
      let state := get_state service_type current_offer market_price agent_reputation urgency
      let rc := oracle round_num
      let ga := get_action ng state rc.1 rc.2 true
      match ga.2 with
      | .accept =>
          match calculate_reward current_offer market_price true with
          | none => none
          | some r =>
              some (update_q_value ga.1 state .accept r none,
                    tr ++ [⟨state, .accept, r, none⟩], d + 1, "accept", current_offer)
      | .reject =>
          match calculate_reward current_offer market_price false with
          | none => none
          | some r =>
              some (update_q_value ga.1 state .reject r none,
                    tr ++ [⟨state, .reject, r, none⟩], d + 1, "reject", 0)
      | .counter_low =>
          negotiateGo service_type market_price agent_reputation max_rounds oracle rest
            (counterLowOffer current_offer)
            (update_q_value ga.1 state .counter_low (-(1/10)) none)
            (tr ++ [⟨state, .counter_low, -(1/10), none⟩]) (d + 1)
      | .counter_high =>
          negotiateGo service_type market_price agent_reputation max_rounds oracle rest
            (counterHighOffer current_offer)
            (update_q_value ga.1 state .counter_high (-(1/10)) none)
            (tr ++ [⟨state, .counter_high, -(1/10), none⟩]) (d + 1)

/-- Source `negotiate`, instrumented: returns the final negotiator, the log of all
`update_q_value` calls of the episode, the number of decision points taken,
and the `(action, price)` result. -/
def negotiateT (ng : RLNegotiator) (service_type : String)
    (initial_offer market_price : Int) (agent_reputation : ℚ) (max_rounds : ℕ)
    (oracle : ℕ → ℚ × NAction) :
    Option (RLNegotiator × List QUpdate × ℕ × String × Int) :=
  negotiateGo service_type market_price agent_reputation max_rounds oracle
    (List.range max_rounds) initial_offer ng [] 0

/-- Source `negotiate` as it appears in the source: the updated negotiator and the
returned `(action, price)` pair. -/
def negotiate (ng : RLNegotiator) (service_type : String)
    (initial_offer market_price : Int) (agent_reputation : ℚ) (max_rounds : ℕ)
    (oracle : ℕ → ℚ × NAction) : Option (RLNegotiator × String × Int) :=
  (negotiateT ng service_type initial_offer market_price agent_reputation max_rounds
    oracle).map (fun r => (r.1, r.2.2.2))

/-- The Q-value the table holds for `(s, a)` (0 for a state not yet visited,
matching lazy initialisation to all-zero). -/
def qValue (ng : RLNegotiator) (s : String) (a : NAction) : ℚ :=
  ((lookupKey ng.q_table s).getD ActionValues.zero).get a

/-- The maximal action value of state `s` in the table (0 for an unvisited
state). -/
def stateMax (ng : RLNegotiator) (s : String) : ℚ :=
  ((lookupKey ng.q_table s).getD ActionValues.zero).maxVal

/-- Replay a log of episode updates, passing no next state — what `negotiate`
actually does on every call. -/
def replayUpdates (ng : RLNegotiator) (tr : List QUpdate) : RLNegotiator :=
  tr.foldl (fun g u => update_q_value g u.state u.action u.reward none) ng

/-- Final price implied by the counter actions of an episode log. -/
def counterFold (offer : Int) (tr : List QUpdate) : Int :=
  tr.foldl (fun o u => applyCounterAction o u.action) offer

/-- The exploration oracle that always explores (`random.random() = 0`) and
always draws `accept`. -/
def alwaysAccept : ℕ → ℚ × NAction := fun _ => (0, NAction.accept)

/-- Oracle for the C7 counterexample episode: counter_high at round 0, then
accept. -/
def c7oracle : ℕ → ℚ × NAction :=
  fun n => if n = 0 then (0, NAction.counter_high) else (0, NAction.accept)

/-- Negotiator state for the C7 counterexample: the default negotiator after
one `update_q_value("svc_high_high_medium", "accept", 5.0)` call, which
leaves Q("svc_high_high_medium", accept) = 0.5. -/
def c7seed : RLNegotiator :=
  update_q_value RLNegotiator.new "svc_high_high_medium" .accept 5 none

/-! ## Bandit selectors (src/ai/bandit_selection.py) -/

/-- Source `MultiArmedBandit` state.  The `confidence_interval` dict is written by
the constructor and never read by any method, so it is omitted. -/
structure MultiArmedBandit where
  agents : List String
  rewards : List (String × List ℚ)
  selection_count : List (String × ℕ)
  cumulative_reward : List (String × ℚ)
  total_selections : ℕ
deriving DecidableEq, Repr

/-- Source `MultiArmedBandit.__init__(agents)`. -/
def MultiArmedBandit.new (agents : List String) : MultiArmedBandit :=
  ⟨agents,
   agents.map (fun a => (a, [])),
   agents.map (fun a => (a, 0)),
   agents.map (fun a => (a, 0)),
   0⟩

/-- Source `update_reward`: raw-index reads `self.rewards[agent]`,
`self.cumulative_reward[agent]`, `self.selection_count[agent]` — a
`KeyError` (`none`) for an agent absent from the tables; there is no lazy
initialisation.  (In every state built by the constructor and this method
the three tables have the same keys, so all-or-nothing matching is exact.) -/
def update_reward (b : MultiArmedBandit) (agent : String) (reward : ℚ) :
    Option MultiArmedBandit :=
  match lookupKey b.rewards agent, lookupKey b.cumulative_reward agent,
        lookupKey b.selection_count agent with
  | some rs, some cum, some cnt =>
      some { b with
        rewards := setKey b.rewards agent (rs ++ [reward]),
        cumulative_reward := setKey b.cumulative_reward agent (cum + reward),
        selection_count := setKey b.selection_count agent (cnt + 1),
        total_selections := b.total_selections + 1 }
  | _, _, _ => none

/-- The UCB score of one agent.  An untried agent scores `float('inf')`
(`⊤`); a tried agent scores
`avg_reward + c * sqrt(log(total_selections) / count)` — the second summand
is real-valued (`np.sqrt`, `np.log`), and only its finiteness matters to any
claim here, so it is the parameter `conf total count`, universally
quantified in every theorem about UCB selection.  Raw-index dict reads
(`KeyError` ⇒ `none`) are kept. -/
def ucbScore (conf : ℕ → ℕ → ℚ) (b : MultiArmedBandit) (agent : String) :
    Option (WithTop ℚ) :=
  match lookupKey b.selection_count agent with
  | none => none
  | some count =>
      if count = 0 then some ⊤
      else
        match lookupKey b.cumulative_reward agent with
        | none => none
        | some cum => some ((cum / (count : ℚ) + conf b.total_selections count : ℚ))

/-- Build the `ucb_values` dict in `for agent in self.agents` order,
propagating a `KeyError`. -/
def scoresFor (f : String → Option (WithTop ℚ)) : List String →
    Option (List (String × WithTop ℚ))
  | [] => some []
  | a :: t =>
      match f a, scoresFor f t with
      | some v, some rest => some ((a, v) :: rest)
      | _, _ => none

/-- Python `max(d, key=d.get)` over a non-empty dict: fold keeping the first
key whose value no later value strictly exceeds. -/
def pickMaxPair : (String × WithTop ℚ) → List (String × WithTop ℚ) → String × WithTop ℚ
  | p, [] => p
  | p, q :: t => pickMaxPair (if q.2 > p.2 then q else p) t

/-- Source `select_ucb1`.  With no selections yet it returns `random.choice(agents)`
(`rnd_choice`, an oracle input); otherwise the agent maximising the UCB
score.  `none` models the exceptions: `KeyError` on inconsistent tables, or
`max` over an empty dict. -/
def select_ucb1 (conf : ℕ → ℕ → ℚ) (b : MultiArmedBandit) (rnd_choice : String) :
    Option String :=
  if b.total_selections = 0 then some rnd_choice
  else
    match scoresFor (ucbScore conf b) b.agents with
    | none => none
    | some [] => none
    | some (p :: t) => some (pickMaxPair p t).1

/-- Runs `n` rounds of the orchestration pattern of C8: select with UCB, then
`update_reward` the selected agent.  `choices i` is the `random.choice`
oracle and `rews i` the observed reward of round `i`.  Returns the final
bandit and the selected agents in order. -/
def runUCB (conf : ℕ → ℕ → ℚ) (choices : ℕ → String) (rews : ℕ → ℚ) :
    MultiArmedBandit → ℕ → ℕ → Option (MultiArmedBandit × List String)
  | b, _, 0 => some (b, [])
  | b, i, n + 1 =>
      match select_ucb1 conf b (choices i) with
      | none => none
      | some a =>
          match update_reward b a (rews i) with
          | none => none
          | some b' =>
              match runUCB conf choices rews b' (i + 1) n with
              | none => none
              | some (bf, sel) => some (bf, a :: sel)

/-- Source `ContextualBandit` state.  The weight vectors are initialised randomly
by the constructor (`np.random.normal`), so states are quantified over; a
history entry keeps the fields read from nowhere (`timestamp` omitted). -/
structure ContextualBandit where
  agents : List String
  context_dim : ℕ
  weights : List (String × List ℚ)
  history : List (String × List ℚ × ℚ × ℚ)
deriving DecidableEq, Repr

/-- Source `np.dot` of two equal-length vectors. -/
def dotQ (w c : List ℚ) : ℚ := (List.zipWith (fun x y => x * y) w c).sum

/-- Source `predict_reward`: raw-index read of `self.weights[agent]` (`KeyError` ⇒
`none`), then the dot product (`np.dot` raises on mismatched lengths). -/
def predict_reward (cb : ContextualBandit) (agent : String) (context : List ℚ) :
    Option ℚ :=
  match lookupKey cb.weights agent with
  | none => none
  | some w => if w.length = context.length then some (dotQ w context) else none

/-- Source `update_weights`: predict, compute the error, gradient-step the weight
vector, append a history entry.  Fails (`KeyError` via `predict_reward`) for
an agent not present at construction; there is no lazy initialisation. -/
def update_weights (cb : ContextualBandit) (agent : String) (context : List ℚ)
    (reward : ℚ) (learning_rate : ℚ) : Option ContextualBandit :=
  match lookupKey cb.weights agent with
  | none => none
  | some w =>
      if w.length = context.length then
        let predicted := dotQ w context
        let error := reward - predicted
        some { cb with
          weights := setKey cb.weights agent
            (List.zipWith (fun wi ci => wi + learning_rate * error * ci) w context),
          history := cb.history ++ [(agent, context, reward, error)] }
      else none

/-- A fresh `ContextualBandit` over one arm "A" with the 4-dimensional zero
weight vector (one of the possible random initialisations), used as a
concrete counterexample state. -/
def cbSample : ContextualBandit := ⟨["A"], 4, [("A", [0, 0, 0, 0])], []⟩

/-- Invariant of the select-then-update UCB loop: after the arms in `S` have
been selected once each, the bandit's tables record exactly that. -/
def InvB (agents S : List String) (b : MultiArmedBandit) : Prop :=
  b.agents = agents ∧
  b.total_selections = S.length ∧
  (∀ a ∈ agents, lookupKey b.selection_count a = some (if a ∈ S then 1 else 0)) ∧
  (∀ a ∈ agents, (lookupKey b.rewards a).isSome) ∧
  (∀ a ∈ agents, (lookupKey b.cumulative_reward a).isSome)

/-- A two-armed bandit with arm "A" tried once and "B" untried, for the C8
witness. -/
def c8bandit : MultiArmedBandit :=
  (update_reward (MultiArmedBandit.new ["A", "B"]) "A" 1).getD
    (MultiArmedBandit.new ["A", "B"])

/-- The final negotiator of the C7 counterexample episode. -/
def c7final : Option RLNegotiator :=
  (negotiateT c7seed "svc" 10 10 5 2 c7oracle).map (fun r => r.1)

/-- Concrete ledger with one active lock "L", for the C4 witness. -/
def c4ledger1 : MockLedger :=
  runOps MockLedger.new [.create "A" 100, .lockOp "A" 30 "p" "L"]

/-- Concrete ledger in which lock "L" has been settled, for the C4 witness. -/
def c4ledger2 : MockLedger :=
  runOps MockLedger.new [.create "A" 100, .lockOp "A" 30 "p" "L", .returnOp "L"]

/-! ## Association-list lemmas -/

theorem lookupKey_setKey {α : Type} (l : List (String × α)) (k k' : String) (v : α) :
    lookupKey (setKey l k v) k' = if k' = k then some v else lookupKey l k' := by
  induction l with
  | nil => simp [setKey, lookupKey]
  | cons p t ih =>
    obtain ⟨k0, v0⟩ := p
    by_cases h : k = k0
    · subst h
      by_cases h2 : k' = k <;> simp [setKey, lookupKey, h2]
    · by_cases h2 : k' = k0
      · subst h2
        have hne : ¬ k' = k := fun hc => h (hc ▸ rfl)
        simp [setKey, lookupKey, h, hne]
      · simp [setKey, lookupKey, h, h2, ih]

theorem lookupKey_mem {α : Type} {l : List (String × α)} {k : String} {v : α}
    (h : lookupKey l k = some v) : (k, v) ∈ l := by
  induction l with
  | nil => simp [lookupKey] at h
  | cons p t ih =>
    obtain ⟨k0, v0⟩ := p
    by_cases h2 : k = k0
    · subst h2
      simp [lookupKey] at h
      simp [h]
    · simp [lookupKey, h2] at h
      exact List.mem_cons_of_mem _ (ih h)

theorem mem_setKey {α : Type} {p : String × α} {l : List (String × α)} {k : String}
    {v : α} (h : p ∈ setKey l k v) : p = (k, v) ∨ p ∈ l := by
  induction l with
  | nil => simpa [setKey] using h
  | cons q t ih =>
    obtain ⟨k0, v0⟩ := q
    by_cases h2 : k = k0
    · subst h2
      simp [setKey] at h
      rcases h with h | h
      · exact Or.inl h
      · exact Or.inr (List.mem_cons_of_mem _ h)
    · simp [setKey, h2] at h
      rcases h with h | h
      · exact Or.inr (by simp [h])
      · rcases ih h with h3 | h3
        · exact Or.inl h3
        · exact Or.inr (List.mem_cons_of_mem _ h3)

theorem mem_eraseKey {α : Type} {p : String × α} {l : List (String × α)} {k : String}
    (h : p ∈ eraseKey l k) : p ∈ l := by
  induction l with
  | nil => simpa [eraseKey] using h
  | cons q t ih =>
    obtain ⟨k0, v0⟩ := q
    by_cases h2 : k = k0
    · subst h2
      simp [eraseKey] at h
      exact List.mem_cons_of_mem _ h
    · simp [eraseKey, h2] at h
      rcases h with h | h
      · simp [h]
      · exact List.mem_cons_of_mem _ (ih h)

theorem lookupKey_isSome_of_mem {α : Type} {l : List (String × α)} {k : String} {v : α}
    (h : (k, v) ∈ l) : (lookupKey l k).isSome := by
  induction l with
  | nil => simp at h
  | cons q t ih =>
    obtain ⟨k0, v0⟩ := q
    by_cases h2 : k = k0
    · simp [lookupKey, h2]
    · rcases List.mem_cons.1 h with h3 | h3
      · exact absurd (congrArg Prod.fst h3) h2
      · simpa [lookupKey, h2] using ih h3

theorem lookupKey_eraseKey_of_none {α : Type} {l : List (String × α)} {k k' : String}
    (h : lookupKey l k = none) : lookupKey (eraseKey l k') k = none := by
  cases hl : lookupKey (eraseKey l k') k with
  | none => rfl
  | some v =>
    have hm : (k, v) ∈ l := mem_eraseKey (lookupKey_mem hl)
    have := lookupKey_isSome_of_mem hm
    rw [h] at this
    simp at this

theorem lookupKey_eraseKey_self {α : Type} {l : List (String × α)} {k : String}
    (hnd : (l.map Prod.fst).Nodup) : lookupKey (eraseKey l k) k = none := by
  induction l with
  | nil => simp [eraseKey, lookupKey]
  | cons q t ih =>
    obtain ⟨k0, v0⟩ := q
    rw [List.map_cons] at hnd
    have hnd' := List.nodup_cons.1 hnd
    by_cases h2 : k = k0
    · subst h2
      have he : eraseKey ((k, v0) :: t) k = t := by simp [eraseKey]
      rw [he]
      cases hl : lookupKey t k with
      | none => rfl
      | some v => exact absurd (List.mem_map_of_mem Prod.fst (lookupKey_mem hl)) hnd'.1
    · have he : eraseKey ((k0, v0) :: t) k = (k0, v0) :: eraseKey t k := by simp [eraseKey, h2]
      rw [he]
      simp only [lookupKey]
      rw [if_neg h2]
      exact ih hnd'.2

theorem nodupKeys_setKey {α : Type} {l : List (String × α)} {k : String} {v : α}
    (hnd : (l.map Prod.fst).Nodup) : ((setKey l k v).map Prod.fst).Nodup := by
  induction l with
  | nil => simp [setKey]
  | cons q t ih =>
    obtain ⟨k0, v0⟩ := q
    rw [List.map_cons] at hnd
    have hnd' := List.nodup_cons.1 hnd
    by_cases h2 : k = k0
    · subst h2
      simp only [setKey, if_pos rfl, List.map_cons]
      exact List.nodup_cons.2 hnd'
    · simp only [setKey, if_neg h2, List.map_cons]
      refine List.nodup_cons.2 ⟨?_, ih hnd'.2⟩
      intro hmem
      rcases List.mem_map.1 hmem with ⟨p, hp, hfst⟩
      rcases mem_setKey hp with h3 | h3
      · exact h2 (by rw [h3] at hfst; exact hfst)
      · exact hnd'.1 (List.mem_map.2 ⟨p, h3, hfst⟩)

theorem nodupKeys_eraseKey {α : Type} {l : List (String × α)} {k : String}
    (hnd : (l.map Prod.fst).Nodup) : ((eraseKey l k).map Prod.fst).Nodup := by
  induction l with
  | nil => simp [eraseKey]
  | cons q t ih =>
    obtain ⟨k0, v0⟩ := q
    rw [List.map_cons] at hnd
    have hnd' := List.nodup_cons.1 hnd
    by_cases h2 : k = k0
    · simp only [eraseKey, if_pos h2]
      exact hnd'.2
    · simp only [eraseKey, if_neg h2, List.map_cons]
      refine List.nodup_cons.2 ⟨?_, ih hnd'.2⟩
      intro hmem
      rcases List.mem_map.1 hmem with ⟨p, hp, hfst⟩
      exact hnd'.1 (List.mem_map.2 ⟨p, mem_eraseKey hp, hfst⟩)

theorem sumBy_setKey {α : Type} (f : α → Int) (l : List (String × α)) (k : String) (v : α) :
    sumBy f (setKey l k v) = sumBy f l + f v - ((lookupKey l k).map f).getD 0 := by
  induction l with
  | nil => simp [setKey, sumBy, lookupKey]
  | cons q t ih =>
    obtain ⟨k0, v0⟩ := q
    by_cases h2 : k = k0
    · subst h2
      simp [setKey, sumBy, lookupKey]
      ring
    · have h2' : ¬ k = k0 := h2
      simp [setKey, h2', sumBy, lookupKey] at ih ⊢
      rw [ih]
      ring

theorem sumBy_eraseKey {α : Type} (f : α → Int) (l : List (String × α)) (k : String) :
    sumBy f (eraseKey l k) = sumBy f l - ((lookupKey l k).map f).getD 0 := by
  induction l with
  | nil => simp [eraseKey, sumBy, lookupKey]
  | cons q t ih =>
    obtain ⟨k0, v0⟩ := q
    by_cases h2 : k = k0
    · subst h2
      simp [eraseKey, sumBy, lookupKey]
    · simp [eraseKey, h2, sumBy, lookupKey] at ih ⊢
      rw [ih]
      ring

/-! ## C1: conservation of total supply -/

theorem getD_map_id (o : Option Int) : (o.map id).getD 0 = o.getD 0 := by
  cases o <;> rfl

theorem transfer_conserves {l : MockLedger} {s r : String} {amt : Int}
    {svc : Option String} {l' : MockLedger} {bl : Bool}
    (h : transfer l s r amt svc = .ok (l', bl)) : totalSupply l' = totalSupply l := by
  by_cases hc : (lookupKey l.accounts s).getD 0 ≥ amt
  · simp only [transfer, if_pos hc] at h
    cases hls : lookupKey l.accounts s with
    | none => rw [hls] at h; exact absurd h (by simp)
    | some b =>
      rw [hls] at h
      simp only [Except.ok.injEq, Prod.mk.injEq] at h
      obtain ⟨hl', _⟩ := h
      subst hl'
      simp only [totalSupply]
      have e1 : sumBy id (setKey l.accounts s (b - amt)) = sumBy id l.accounts - amt := by
        rw [sumBy_setKey, hls]
        simp
        try ring
      rw [sumBy_setKey, getD_map_id, e1]
      cases lookupKey (setKey l.accounts s (b - amt)) r <;> simp <;> try ring
  · simp only [transfer, if_neg hc] at h
    simp only [Except.ok.injEq, Prod.mk.injEq] at h
    obtain ⟨hl', _⟩ := h
    subst hl'
    rfl

theorem lock_funds_conserves {l : MockLedger} {a : String} {amt : Int} {p lid : String}
    {l' : MockLedger} {res : Option String}
    (hfresh : lookupKey l.locked_funds lid = none)
    (h : lock_funds l a amt p lid = .ok (l', res)) : totalSupply l' = totalSupply l := by
  by_cases hc : (lookupKey l.accounts a).getD 0 ≥ amt
  · simp only [lock_funds, if_pos hc] at h
    cases hls : lookupKey l.accounts a with
    | none => rw [hls] at h; exact absurd h (by simp)
    | some b =>
      rw [hls] at h
      simp only [Except.ok.injEq, Prod.mk.injEq] at h
      obtain ⟨hl', _⟩ := h
      subst hl'
      simp only [totalSupply]
      have e1 : sumBy id (setKey l.accounts a (b - amt)) = sumBy id l.accounts - amt := by
        rw [sumBy_setKey, hls]
        simp
        try ring
      rw [e1, sumBy_setKey, hfresh]
      simp
      try ring
  · simp only [lock_funds, if_neg hc] at h
    simp only [Except.ok.injEq, Prod.mk.injEq] at h
    obtain ⟨hl', _⟩ := h
    subst hl'
    rfl

theorem release_funds_conserves (l : MockLedger) (lid toA : String) :
    totalSupply (release_funds l lid toA).1 = totalSupply l := by
  cases hls : lookupKey l.locked_funds lid with
  | none => simp [release_funds, hls]
  | some lk =>
    simp only [release_funds, hls, totalSupply]
    rw [sumBy_setKey, getD_map_id, sumBy_eraseKey, hls]
    simp
    try ring

theorem return_locked_funds_conserves {l : MockLedger} {lid : String}
    {l' : MockLedger} {bl : Bool}
    (h : return_locked_funds l lid = .ok (l', bl)) : totalSupply l' = totalSupply l := by
  cases hls : lookupKey l.locked_funds lid with
  | none =>
    simp only [return_locked_funds, hls, Except.ok.injEq, Prod.mk.injEq] at h
    obtain ⟨hl', _⟩ := h
    subst hl'
    rfl
  | some lk =>
    simp only [return_locked_funds, hls] at h
    cases hla : lookupKey l.accounts lk.agent with
    | none => rw [hla] at h; exact absurd h (by simp)
    | some b =>
      rw [hla] at h
      simp only [Except.ok.injEq, Prod.mk.injEq] at h
      obtain ⟨hl', _⟩ := h
      subst hl'
      simp only [totalSupply]
      rw [sumBy_setKey, hla, sumBy_eraseKey, hls]
      simp
      try ring

theorem create_account_supply (l : MockLedger) (a : String) (i : Int) :
    totalSupply (create_account l a i) = totalSupply l + i - get_balance l a := by
  simp only [create_account, totalSupply, get_balance]
  rw [sumBy_setKey, getD_map_id]
  simp only [id_eq]
  ring

/-- C1: total supply (free balances + active escrow amounts) is exactly
conserved by every `transfer` and `return_locked_funds` that returns, by
every `release_funds`, and by every `lock_funds` that returns, provided the
generated lock id is not already active; calls that raise leave the supply
of `transfer` and `lock_funds` unchanged.  `create_account` changes total
supply by `initial_balance - get_balance l a`, hence is non-decreasing
exactly when the new initial balance is at least the account's previous
balance (in particular for a fresh account with a non-negative balance). -/
theorem C1_conservation :
    (∀ l s r amt svc l' bl, transfer l s r amt svc = .ok (l', bl) →
        totalSupply l' = totalSupply l) ∧
    (∀ l s r amt svc e, transfer l s r amt svc = .error e → e = l) ∧
    (∀ l a amt p lid l' res, lookupKey l.locked_funds lid = none →
        lock_funds l a amt p lid = .ok (l', res) → totalSupply l' = totalSupply l) ∧
    (∀ l a amt p lid e, lock_funds l a amt p lid = .error e → e = l) ∧
    (∀ l lid toA, totalSupply (release_funds l lid toA).1 = totalSupply l) ∧
    (∀ l lid l' bl, return_locked_funds l lid = .ok (l', bl) →
        totalSupply l' = totalSupply l) ∧
    (∀ l a i, totalSupply (create_account l a i) = totalSupply l + i - get_balance l a) := by
  refine ⟨fun l s r amt svc l' bl h => transfer_conserves h,
          ?_,
          fun l a amt p lid l' res hf h => lock_funds_conserves hf h,
          ?_,
          release_funds_conserves,
          fun l lid l' bl h => return_locked_funds_conserves h,
          create_account_supply⟩
  · intro l s r amt svc e h
    by_cases hc : (lookupKey l.accounts s).getD 0 ≥ amt
    · simp only [transfer, if_pos hc] at h
      cases hls : lookupKey l.accounts s with
      | none => rw [hls] at h; simpa using h.symm
      | some b => rw [hls] at h; exact absurd h (by simp)
    · simp only [transfer, if_neg hc] at h
      exact absurd h (by simp)
  · intro l a amt p lid e h
    by_cases hc : (lookupKey l.accounts a).getD 0 ≥ amt
    · simp only [lock_funds, if_pos hc] at h
      cases hls : lookupKey l.accounts a with
      | none => rw [hls] at h; simpa using h.symm
      | some b => rw [hls] at h; exact absurd h (by simp)
    · simp only [lock_funds, if_neg hc] at h
      exact absurd h (by simp)

/-- C1 counterexample: as literally stated the claim is false.
`create_account` can strictly decrease total supply (re-creating account
"A" with balance 0 after it held 100), and `lock_funds` does not conserve
supply when the generated lock id collides with an active lock (two
same-purpose locks in the same wall-clock second): the active 30-token lock
"L" is overwritten and the supply drops from 200 to 170. -/
theorem C1_counterexample :
    totalSupply (create_account (create_account MockLedger.new "A" 100) "A" 0) <
      totalSupply (create_account MockLedger.new "A" 100) ∧
    totalSupply (stateOf (lock_funds
        (runOps MockLedger.new [.create "A" 100, .create "B" 100, .lockOp "A" 30 "p" "L"])
        "B" 20 "p" "L")) ≠
      totalSupply (runOps MockLedger.new
        [.create "A" 100, .create "B" 100, .lockOp "A" 30 "p" "L"]) := by
  constructor
  · decide
  · decide

/-- C1 witness: the conserved/changed quantities at concrete calls. -/
theorem C1_conservation_witness :
    totalSupply (stateOf (transfer
        (runOps MockLedger.new [.create "A" 100, .create "B" 100]) "A" "B" 30 none)) =
      totalSupply (runOps MockLedger.new [.create "A" 100, .create "B" 100]) ∧
    totalSupply (stateOf (lock_funds
        (runOps MockLedger.new [.create "A" 100, .create "B" 100]) "A" 30 "p" "L")) =
      totalSupply (runOps MockLedger.new [.create "A" 100, .create "B" 100]) ∧
    totalSupply (release_funds
        (runOps MockLedger.new [.create "A" 100, .lockOp "A" 30 "p" "L"]) "L" "B").1 =
      totalSupply (runOps MockLedger.new [.create "A" 100, .lockOp "A" 30 "p" "L"]) ∧
    totalSupply (stateOf (return_locked_funds
        (runOps MockLedger.new [.create "A" 100, .lockOp "A" 30 "p" "L"]) "L")) =
      totalSupply (runOps MockLedger.new [.create "A" 100, .lockOp "A" 30 "p" "L"]) ∧
    totalSupply (create_account (runOps MockLedger.new [.create "A" 100]) "C" 50) =
      totalSupply (runOps MockLedger.new [.create "A" 100]) + 50 -
        get_balance (runOps MockLedger.new [.create "A" 100]) "C" := by
  refine ⟨C1_conservation.1 _ "A" "B" 30 none _ true rfl,
          C1_conservation.2.2.1 _ "A" 30 "p" "L" _ (some "L") (by decide) rfl,
          C1_conservation.2.2.2.2.1 _ "L" "B",
          C1_conservation.2.2.2.2.2.1 _ "L" _ true rfl,
          C1_conservation.2.2.2.2.2.2 _ "C" 50⟩

/-! ## C2: the transfer contract -/

/-- C2 (amended): provided the sender has an account or the amount is
positive, `transfer` succeeds if and only if the sender's free balance is at
least `amount`; on success it debits the sender by `amount`, credits the
receiver by `amount`, appends exactly one `Transaction` record and returns
`true`; otherwise it returns `false` and leaves the state unchanged.
(Without the proviso the call raises `KeyError`, see `C2_counterexample`.) -/
theorem C2_transfer_contract : ∀ l s r amt svc,
    ((lookupKey l.accounts s).isSome ∨ 0 < amt) →
    (amt ≤ get_balance l s →
      ∃ l', transfer l s r amt svc = .ok (l', true) ∧
        (∀ a, get_balance l' a =
          get_balance l a + (if a = r then amt else 0) - (if a = s then amt else 0)) ∧
        l'.transaction_history = l.transaction_history ++ [⟨s, r, amt, svc⟩] ∧
        l'.locked_funds = l.locked_funds) ∧
    (get_balance l s < amt → transfer l s r amt svc = .ok (l, false)) := by
  intro l s r amt svc hpre
  cases hls : lookupKey l.accounts s with
  | some b =>
    have hbal : get_balance l s = b := by simp [get_balance, hls]
    constructor
    · intro hge
      rw [hbal] at hge
      have hc : (lookupKey l.accounts s).getD 0 ≥ amt := by simp [hls]; exact hge
      refine ⟨⟨setKey (setKey l.accounts s (b - amt)) r
                 ((lookupKey (setKey l.accounts s (b - amt)) r).getD 0 + amt),
               l.locked_funds, l.transaction_history ++ [⟨s, r, amt, svc⟩]⟩,
             ?_, ?_, rfl, rfl⟩
      · simp [transfer, if_pos hc, hls]
        exact hge
      · intro a
        by_cases har : a = r
        · subst har
          by_cases has : a = s
          · subst has
            simp [get_balance, lookupKey_setKey, hls]
            try omega
          · simp [get_balance, lookupKey_setKey, has, hls]
            try omega
        · by_cases has : a = s
          · subst has
            simp [get_balance, lookupKey_setKey, har, hls]
            try omega
          · simp [get_balance, lookupKey_setKey, har, has]
            try omega
    · intro hlt
      rw [hbal] at hlt
      have hc : ¬ (lookupKey l.accounts s).getD 0 ≥ amt := by simp [hls]; omega
      simp only [transfer, if_neg hc]
  | none =>
    have hbal : get_balance l s = 0 := by simp [get_balance, hls]
    have hpos : 0 < amt := by
      rcases hpre with hs | hp
      · rw [hls] at hs; simp at hs
      · exact hp
    constructor
    · intro hge
      rw [hbal] at hge
      omega
    · intro _
      have hc : ¬ (lookupKey l.accounts s).getD 0 ≥ amt := by simp [hls]; omega
      simp only [transfer, if_neg hc]

/-- C2 counterexample: as literally stated the claim is false.  On the empty
ledger the sender "A" has free balance 0 ≥ amount 0, so the claim demands a
successful transfer returning `true`; the code instead raises `KeyError` at
`self.accounts[sender] -= amount` (the `.error` carries the unchanged
state). -/
theorem C2_counterexample :
    0 ≤ get_balance MockLedger.new "A" ∧
    transfer MockLedger.new "A" "B" 0 none = .error MockLedger.new := by
  exact ⟨by decide, rfl⟩

/-- C2 witness: the contract at the concrete scenario of the spec
(accounts A=100, B=100; transfer of 50 succeeds, transfer of 200 fails). -/
theorem C2_transfer_contract_witness :
    ((50 : Int) ≤ get_balance (runOps MockLedger.new [.create "A" 100, .create "B" 100]) "A" →
      ∃ l', transfer (runOps MockLedger.new [.create "A" 100, .create "B" 100])
          "A" "B" 50 none = .ok (l', true) ∧
        (∀ a, get_balance l' a =
          get_balance (runOps MockLedger.new [.create "A" 100, .create "B" 100]) a +
            (if a = "B" then 50 else 0) - (if a = "A" then 50 else 0)) ∧
        l'.transaction_history =
          (runOps MockLedger.new [.create "A" 100, .create "B" 100]).transaction_history ++
            [⟨"A", "B", 50, none⟩] ∧
        l'.locked_funds =
          (runOps MockLedger.new [.create "A" 100, .create "B" 100]).locked_funds) ∧
    (get_balance (runOps MockLedger.new [.create "A" 100, .create "B" 100]) "A" < 200 →
      transfer (runOps MockLedger.new [.create "A" 100, .create "B" 100]) "A" "B" 200 none =
        .ok (runOps MockLedger.new [.create "A" 100, .create "B" 100], false)) := by
  exact ⟨(C2_transfer_contract _ "A" "B" 50 none (Or.inr (by decide))).1,
         (C2_transfer_contract _ "A" "B" 200 none (Or.inr (by decide))).2⟩

/-! ## C3: no negative balances -/

theorem getD_nonneg_of_inv {acc : List (String × Int)} (hinv : ∀ p ∈ acc, 0 ≤ p.2)
    (k : String) : 0 ≤ (lookupKey acc k).getD 0 := by
  cases h : lookupKey acc k with
  | none => simp
  | some v => simpa using hinv (k, v) (lookupKey_mem h)

theorem memPred_setKey {α : Type} {P : String × α → Prop} {l : List (String × α)}
    {k : String} {v : α} (hinv : ∀ p ∈ l, P p) (hv : P (k, v)) :
    ∀ p ∈ setKey l k v, P p := by
  intro p hp
  rcases mem_setKey hp with he | hm
  · rw [he]
    exact hv
  · exact hinv p hm

theorem memPred_eraseKey {α : Type} {P : String × α → Prop} {l : List (String × α)}
    {k : String} (hinv : ∀ p ∈ l, P p) : ∀ p ∈ eraseKey l k, P p :=
  fun p hp => hinv p (mem_eraseKey hp)

theorem ledgerNonneg_applyOp {l : MockLedger} {op : LedgerOp}
    (hinv : ledgerNonneg l) (hop : opNonneg op) : ledgerNonneg (applyOp l op) := by
  obtain ⟨hacc, hlock⟩ := hinv
  cases op with
  | create a i =>
    exact ⟨memPred_setKey hacc hop, hlock⟩
  | transferOp s r amt svc =>
    have hamt : (0:Int) ≤ amt := hop
    cases hls : lookupKey l.accounts s with
    | none =>
      have heq : applyOp l (LedgerOp.transferOp s r amt svc) = l := by
        by_cases hc : (0:Int) ≥ amt
        · simp [applyOp, transfer, stateOf, hls, hc]
        · simp [applyOp, transfer, stateOf, hls, hc]
      rw [heq]
      exact ⟨hacc, hlock⟩
    | some b =>
      by_cases hc : b ≥ amt
      · have hb : 0 ≤ b - amt := by omega
        have hset : ∀ p ∈ setKey l.accounts s (b - amt), 0 ≤ p.2 := memPred_setKey hacc hb
        have hx : 0 ≤ (lookupKey (setKey l.accounts s (b - amt)) r).getD 0 + amt := by
          have h0 := getD_nonneg_of_inv hset r
          omega
        have heq : applyOp l (LedgerOp.transferOp s r amt svc) =
            { accounts := setKey (setKey l.accounts s (b - amt)) r
                ((lookupKey (setKey l.accounts s (b - amt)) r).getD 0 + amt),
              locked_funds := l.locked_funds,
              transaction_history := l.transaction_history ++ [⟨s, r, amt, svc⟩] } := by
          simp [applyOp, transfer, stateOf, hls, hc]
        rw [heq]
        exact ⟨memPred_setKey hset hx, hlock⟩
      · have heq : applyOp l (LedgerOp.transferOp s r amt svc) = l := by
          simp [applyOp, transfer, stateOf, hls, hc]
        rw [heq]
        exact ⟨hacc, hlock⟩
  | lockOp a amt pur lid =>
    have hamt : (0:Int) ≤ amt := hop
    cases hls : lookupKey l.accounts a with
    | none =>
      have heq : applyOp l (LedgerOp.lockOp a amt pur lid) = l := by
        by_cases hc : (0:Int) ≥ amt
        · simp [applyOp, lock_funds, stateOf, hls, hc]
        · simp [applyOp, lock_funds, stateOf, hls, hc]
      rw [heq]
      exact ⟨hacc, hlock⟩
    | some b =>
      by_cases hc : b ≥ amt
      · have hb : 0 ≤ b - amt := by omega
        have hlk : ∀ p ∈ setKey l.locked_funds lid (⟨a, amt, pur⟩ : Lock), 0 ≤ p.2.amount :=
          memPred_setKey hlock hamt
        have heq : applyOp l (LedgerOp.lockOp a amt pur lid) =
            { accounts := setKey l.accounts a (b - amt),
              locked_funds := setKey l.locked_funds lid ⟨a, amt, pur⟩,
              transaction_history := l.transaction_history } := by
          simp [applyOp, lock_funds, stateOf, hls, hc]
        rw [heq]
        exact ⟨memPred_setKey hacc hb, hlk⟩
      · have heq : applyOp l (LedgerOp.lockOp a amt pur lid) = l := by
          simp [applyOp, lock_funds, stateOf, hls, hc]
        rw [heq]
        exact ⟨hacc, hlock⟩
  | releaseOp lid toA =>
    cases hls : lookupKey l.locked_funds lid with
    | none =>
      have heq : applyOp l (LedgerOp.releaseOp lid toA) = l := by
        simp [applyOp, release_funds, hls]
      rw [heq]
      exact ⟨hacc, hlock⟩
    | some lk =>
      have hamt : 0 ≤ lk.amount := hlock (lid, lk) (lookupKey_mem hls)
      have hx : 0 ≤ (lookupKey l.accounts toA).getD 0 + lk.amount := by
        have h0 := getD_nonneg_of_inv hacc toA
        omega
      have her : ∀ p ∈ eraseKey l.locked_funds lid, 0 ≤ p.2.amount := memPred_eraseKey hlock
      have heq : applyOp l (LedgerOp.releaseOp lid toA) =
          { accounts := setKey l.accounts toA ((lookupKey l.accounts toA).getD 0 + lk.amount),
            locked_funds := eraseKey l.locked_funds lid,
            transaction_history := l.transaction_history } := by
        simp [applyOp, release_funds, hls]
      rw [heq]
      exact ⟨memPred_setKey hacc hx, her⟩
  | returnOp lid =>
    cases hls : lookupKey l.locked_funds lid with
    | none =>
      have heq : applyOp l (LedgerOp.returnOp lid) = l := by
        simp [applyOp, return_locked_funds, stateOf, hls]
      rw [heq]
      exact ⟨hacc, hlock⟩
    | some lk =>
      have hamt : 0 ≤ lk.amount := hlock (lid, lk) (lookupKey_mem hls)
      have her : ∀ p ∈ eraseKey l.locked_funds lid, 0 ≤ p.2.amount := memPred_eraseKey hlock
      cases hla : lookupKey l.accounts lk.agent with
      | none =>
        have heq : applyOp l (LedgerOp.returnOp lid) =
            { accounts := l.accounts,
              locked_funds := eraseKey l.locked_funds lid,
              transaction_history := l.transaction_history } := by
          simp [applyOp, return_locked_funds, stateOf, hls, hla]
        rw [heq]
        exact ⟨hacc, her⟩
      | some b =>
        have hb : 0 ≤ b := by simpa using hacc (lk.agent, b) (lookupKey_mem hla)
        have hx : 0 ≤ b + lk.amount := by omega
        have heq : applyOp l (LedgerOp.returnOp lid) =
            { accounts := setKey l.accounts lk.agent (b + lk.amount),
              locked_funds := eraseKey l.locked_funds lid,
              transaction_history := l.transaction_history } := by
          simp [applyOp, return_locked_funds, stateOf, hls, hla]
        rw [heq]
        exact ⟨memPred_setKey hacc hx, her⟩

theorem ledgerNonneg_runOps {l : MockLedger} {ops : List LedgerOp}
    (hinv : ledgerNonneg l) (hops : ∀ op ∈ ops, opNonneg op) :
    ledgerNonneg (runOps l ops) := by
  induction ops generalizing l with
  | nil => exact hinv
  | cons op rest ih =>
    have h1 : opNonneg op := hops op (List.mem_cons_self op rest)
    have h2 : ∀ o ∈ rest, opNonneg o := fun o ho => hops o (List.mem_cons_of_mem op ho)
    simpa [runOps] using ih (ledgerNonneg_applyOp hinv h1) h2

/-- C3 (amended): in every state reached from the fresh ledger by a sequence
of operations whose amounts and initial balances are non-negative, every
account balance is non-negative.  (With arbitrary — negative — argument
values the claim fails, see `C3_counterexample`.) -/
theorem C3_no_negative_balances :
    ∀ ops : List LedgerOp, (∀ op ∈ ops, opNonneg op) →
      ∀ a, 0 ≤ get_balance (runOps MockLedger.new ops) a := by
  intro ops hops a
  have hinv : ledgerNonneg (runOps MockLedger.new ops) :=
    ledgerNonneg_runOps ⟨by simp [MockLedger.new], by simp [MockLedger.new]⟩ hops
  exact getD_nonneg_of_inv hinv.1 a

/-- C3 counterexample: as literally stated (any argument values) the claim
is false: `create_account("A", -5)` reaches a state where "A" has balance
−5. -/
theorem C3_counterexample :
    get_balance (runOps MockLedger.new [.create "A" (-5)]) "A" < 0 := by decide

/-- C3 witness: the invariant evaluated on a concrete non-negative run. -/
theorem C3_no_negative_balances_witness :
    0 ≤ get_balance (runOps MockLedger.new
      [.create "A" 100, .create "B" 100, .transferOp "A" "B" 70 none,
       .lockOp "B" 120 "p" "L", .releaseOp "L" "A", .transferOp "A" "B" 150 none]) "A" := by
  refine C3_no_negative_balances _ ?_ "A"
  intro op hop
  simp only [List.mem_cons, List.not_mem_nil, or_false] at hop
  rcases hop with h | h | h | h | h | h <;> subst h <;> simp [opNonneg]

/-! ## C4: escrow single settlement -/

theorem release_funds_removes {l : MockLedger} {lid toA : String} {l' : MockLedger}
    (hnd : (l.locked_funds.map Prod.fst).Nodup)
    (h : release_funds l lid toA = (l', true)) :
    lookupKey l'.locked_funds lid = none := by
  cases hls : lookupKey l.locked_funds lid with
  | none =>
    simp only [release_funds, hls, Prod.mk.injEq] at h
    exact absurd h.2 (by simp)
  | some lk =>
    simp only [release_funds, hls, Prod.mk.injEq] at h
    rw [← h.1]
    exact lookupKey_eraseKey_self hnd

theorem return_locked_funds_removes {l : MockLedger} {lid : String} {l' : MockLedger}
    (hnd : (l.locked_funds.map Prod.fst).Nodup)
    (h : return_locked_funds l lid = .ok (l', true)) :
    lookupKey l'.locked_funds lid = none := by
  cases hls : lookupKey l.locked_funds lid with
  | none =>
    simp only [return_locked_funds, hls, Except.ok.injEq, Prod.mk.injEq] at h
    exact absurd h.2 (by simp)
  | some lk =>
    simp only [return_locked_funds, hls] at h
    cases hla : lookupKey l.accounts lk.agent with
    | none => rw [hla] at h; exact absurd h (by simp)
    | some b =>
      rw [hla] at h
      simp only [Except.ok.injEq, Prod.mk.injEq] at h
      rw [← h.1]
      exact lookupKey_eraseKey_self hnd

theorem settle_inactive_noop {l : MockLedger} {lid : String}
    (h : lookupKey l.locked_funds lid = none) (toA : String) :
    release_funds l lid toA = (l, false) ∧ return_locked_funds l lid = .ok (l, false) := by
  constructor
  · simp [release_funds, h]
  · simp [return_locked_funds, h]

theorem inactive_preserved_applyOp {l : MockLedger} {lid : String} {op : LedgerOp}
    (h : lookupKey l.locked_funds lid = none) (hav : opAvoidsLock lid op) :
    lookupKey (applyOp l op).locked_funds lid = none := by
  cases op with
  | create a i => exact h
  | transferOp s r amt svc =>
    cases hls : lookupKey l.accounts s with
    | none =>
      by_cases hc : (0:Int) ≥ amt <;>
        · have heq : applyOp l (LedgerOp.transferOp s r amt svc) = l := by
            simp [applyOp, transfer, stateOf, hls, hc]
          rw [heq]
          exact h
    | some b =>
      by_cases hc : b ≥ amt
      · have heq : (applyOp l (LedgerOp.transferOp s r amt svc)).locked_funds =
            l.locked_funds := by
          simp [applyOp, transfer, stateOf, hls, hc]
        rw [heq]
        exact h
      · have heq : applyOp l (LedgerOp.transferOp s r amt svc) = l := by
          simp [applyOp, transfer, stateOf, hls, hc]
        rw [heq]
        exact h
  | lockOp a amt pur lid' =>
    have hne : lid' ≠ lid := hav
    cases hls : lookupKey l.accounts a with
    | none =>
      by_cases hc : (0:Int) ≥ amt <;>
        · have heq : applyOp l (LedgerOp.lockOp a amt pur lid') = l := by
            simp [applyOp, lock_funds, stateOf, hls, hc]
          rw [heq]
          exact h
    | some b =>
      by_cases hc : b ≥ amt
      · have heq : (applyOp l (LedgerOp.lockOp a amt pur lid')).locked_funds =
            setKey l.locked_funds lid' ⟨a, amt, pur⟩ := by
          simp [applyOp, lock_funds, stateOf, hls, hc]
        rw [heq, lookupKey_setKey]
        rw [if_neg (fun hc2 => hne hc2.symm)]
        exact h
      · have heq : applyOp l (LedgerOp.lockOp a amt pur lid') = l := by
          simp [applyOp, lock_funds, stateOf, hls, hc]
        rw [heq]
        exact h
  | releaseOp lid' toA =>
    cases hls : lookupKey l.locked_funds lid' with
    | none =>
      have heq : applyOp l (LedgerOp.releaseOp lid' toA) = l := by
        simp [applyOp, release_funds, hls]
      rw [heq]
      exact h
    | some lk =>
      have heq : (applyOp l (LedgerOp.releaseOp lid' toA)).locked_funds =
          eraseKey l.locked_funds lid' := by
        simp [applyOp, release_funds, hls]
      rw [heq]
      exact lookupKey_eraseKey_of_none h
  | returnOp lid' =>
    cases hls : lookupKey l.locked_funds lid' with
    | none =>
      have heq : applyOp l (LedgerOp.returnOp lid') = l := by
        simp [applyOp, return_locked_funds, stateOf, hls]
      rw [heq]
      exact h
    | some lk =>
      cases hla : lookupKey l.accounts lk.agent with
      | none =>
        have heq : (applyOp l (LedgerOp.returnOp lid')).locked_funds =
            eraseKey l.locked_funds lid' := by
          simp [applyOp, return_locked_funds, stateOf, hls, hla]
        rw [heq]
        exact lookupKey_eraseKey_of_none h
      | some b =>
        have heq : (applyOp l (LedgerOp.returnOp lid')).locked_funds =
            eraseKey l.locked_funds lid' := by
          simp [applyOp, return_locked_funds, stateOf, hls, hla]
        rw [heq]
        exact lookupKey_eraseKey_of_none h

theorem inactive_preserved_runOps {l : MockLedger} {lid : String} {ops : List LedgerOp}
    (h : lookupKey l.locked_funds lid = none) (hav : ∀ op ∈ ops, opAvoidsLock lid op) :
    lookupKey (runOps l ops).locked_funds lid = none := by
  induction ops generalizing l with
  | nil => exact h
  | cons op rest ih =>
    have h1 := hav op (List.mem_cons_self op rest)
    have h2 : ∀ o ∈ rest, opAvoidsLock lid o := fun o ho => hav o (List.mem_cons_of_mem op ho)
    simpa [runOps] using ih (inactive_preserved_applyOp h h1) h2

/-- C4 (amended): a lock id settled by `release_funds` or
`return_locked_funds` is removed from the active escrow table (its lock-id
keys being unique, as in any Python dict); an inactive id stays inactive
across any sequence of operations none of which is a `lock_funds` call whose
freshly generated id equals it; and both settlement calls on an inactive id
return the failure value and leave the ledger completely unchanged.
(Without the no-reissue proviso the claim fails: generated ids can collide,
see `C4_counterexample`.) -/
theorem C4_single_settlement :
    (∀ l lid toA l', (l.locked_funds.map Prod.fst).Nodup →
        release_funds l lid toA = (l', true) → lookupKey l'.locked_funds lid = none) ∧
    (∀ l lid l', (l.locked_funds.map Prod.fst).Nodup →
        return_locked_funds l lid = .ok (l', true) → lookupKey l'.locked_funds lid = none) ∧
    (∀ l lid ops, lookupKey l.locked_funds lid = none →
        (∀ op ∈ ops, opAvoidsLock lid op) →
        lookupKey (runOps l ops).locked_funds lid = none) ∧
    (∀ l lid toA, lookupKey l.locked_funds lid = none →
        release_funds l lid toA = (l, false) ∧ return_locked_funds l lid = .ok (l, false)) :=
  ⟨fun l lid toA l' hnd h => release_funds_removes hnd h,
   fun l lid l' hnd h => return_locked_funds_removes hnd h,
   fun l lid ops h hav => inactive_preserved_runOps h hav,
   fun l lid toA h => settle_inactive_noop h toA⟩

/-- C4 counterexample: as literally stated the claim is false.  After
`lock_funds("A", 30, "p")` receives id "L", `return_locked_funds("L")`
settles it; a second `lock_funds("A", 30, "p")` in the same wall-clock
second generates the same id "L" again, after which `release_funds("L","B")`
— a settlement call on the already-settled id — succeeds instead of
failing. -/
theorem C4_counterexample :
    settleFlag (return_locked_funds (runOps MockLedger.new
      [.create "A" 100, .lockOp "A" 30 "p" "L"]) "L") = true ∧
    (release_funds (runOps MockLedger.new
      [.create "A" 100, .lockOp "A" 30 "p" "L", .returnOp "L", .lockOp "A" 30 "p" "L"])
      "L" "B").2 = true := by
  exact ⟨by decide, by decide⟩

/-- C4 witness: settlement and re-settlement behaviour at a concrete state. -/
theorem C4_single_settlement_witness :
    lookupKey (stateOf (return_locked_funds c4ledger1 "L")).locked_funds "L" = none ∧
    lookupKey (runOps c4ledger2
        [.create "C" 5, .lockOp "A" 10 "q" "M", .transferOp "A" "C" 5 none]).locked_funds
      "L" = none ∧
    release_funds c4ledger2 "L" "B" = (c4ledger2, false) := by
  refine ⟨C4_single_settlement.2.1 c4ledger1 "L"
            (stateOf (return_locked_funds c4ledger1 "L")) (by decide) rfl,
          C4_single_settlement.2.2.1 c4ledger2 "L"
            [.create "C" 5, .lockOp "A" 10 "q" "M", .transferOp "A" "C" 5 none]
            (by decide) ?_,
          (C4_single_settlement.2.2.2 c4ledger2 "L" "B" (by decide)).1⟩
  intro op hop
  simp only [List.mem_cons, List.not_mem_nil, or_false] at hop
  rcases hop with h | h | h <;> subst h <;> simp [opAvoidsLock]

/-! ## C5: bounded negotiation with accept/reject outcome -/

theorem calculate_reward_deal_some {p m : Int} (hm : m ≠ 0) :
    calculate_reward p m true =
      some (if (p:ℚ)/(m:ℚ) > 6/5 then 1 else if (p:ℚ)/(m:ℚ) > 1 then 1/2
            else if (p:ℚ)/(m:ℚ) > 4/5 then 0 else -(1/2)) := by
  simp [calculate_reward, hm]

theorem negotiateGo_spec (service : String) (market : Int) (rep : ℚ) (maxR : ℕ)
    (oracle : ℕ → ℚ × NAction) (hm : 1 ≤ market) :
    ∀ (rounds : List ℕ) (offer : Int) (ng : RLNegotiator) (tr : List QUpdate) (d : ℕ),
      ∃ ng' tr2 d' res p,
        negotiateGo service market rep maxR oracle rounds offer ng tr d =
          some (ng', tr ++ tr2, d', res, p) ∧
        d' ≤ d + rounds.length ∧
        ((res = "accept" ∧ p = counterFold offer tr2) ∨ (res = "reject" ∧ p = 0)) := by
  have hm0 : market ≠ 0 := by omega
  intro rounds
  induction rounds with
  | nil =>
    intro offer ng tr d
    have heq : negotiateGo service market rep maxR oracle [] offer ng tr d =
        some (update_q_value ng (get_state service offer market rep 1) .accept
                (if (offer:ℚ)/(market:ℚ) > 6/5 then 1 else if (offer:ℚ)/(market:ℚ) > 1 then 1/2
                 else if (offer:ℚ)/(market:ℚ) > 4/5 then 0 else -(1/2)) none,
              tr ++ [⟨get_state service offer market rep 1, .accept,
                (if (offer:ℚ)/(market:ℚ) > 6/5 then 1 else if (offer:ℚ)/(market:ℚ) > 1 then 1/2
                 else if (offer:ℚ)/(market:ℚ) > 4/5 then 0 else -(1/2)), none⟩],
              d, "accept", offer) := by
      simp only [negotiateGo, calculate_reward_deal_some hm0]
    exact ⟨_, _, d, "accept", offer, heq, by omega,
           Or.inl ⟨rfl, by simp [counterFold, applyCounterAction]⟩⟩
  | cons rn rest ih =>
    intro offer ng tr d
    cases hact : (get_action ng
        (get_state service offer market rep ((rn : ℚ) / (maxR : ℚ)))
        (oracle rn).1 (oracle rn).2 true).2 with
    | accept =>
      have heq : negotiateGo service market rep maxR oracle (rn :: rest) offer ng tr d =
          some (update_q_value (get_action ng
                  (get_state service offer market rep ((rn : ℚ) / (maxR : ℚ)))
                  (oracle rn).1 (oracle rn).2 true).1
                (get_state service offer market rep ((rn : ℚ) / (maxR : ℚ))) .accept
                (if (offer:ℚ)/(market:ℚ) > 6/5 then 1 else if (offer:ℚ)/(market:ℚ) > 1 then 1/2
                 else if (offer:ℚ)/(market:ℚ) > 4/5 then 0 else -(1/2)) none,
                tr ++ [⟨get_state service offer market rep ((rn : ℚ) / (maxR : ℚ)), .accept,
                  (if (offer:ℚ)/(market:ℚ) > 6/5 then 1 else if (offer:ℚ)/(market:ℚ) > 1 then 1/2
                   else if (offer:ℚ)/(market:ℚ) > 4/5 then 0 else -(1/2)), none⟩],
                d + 1, "accept", offer) := by
        simp only [negotiateGo, hact, calculate_reward_deal_some hm0]
      exact ⟨_, _, d + 1, "accept", offer, heq, by simp only [List.length_cons]; omega,
             Or.inl ⟨rfl, by simp [counterFold, applyCounterAction]⟩⟩
    | reject =>
      have heq : negotiateGo service market rep maxR oracle (rn :: rest) offer ng tr d =
          some (update_q_value (get_action ng
                  (get_state service offer market rep ((rn : ℚ) / (maxR : ℚ)))
                  (oracle rn).1 (oracle rn).2 true).1
                (get_state service offer market rep ((rn : ℚ) / (maxR : ℚ))) .reject (-1) none,
                tr ++ [⟨get_state service offer market rep ((rn : ℚ) / (maxR : ℚ)),
                       .reject, -1, none⟩],
                d + 1, "reject", 0) := by
        simp only [negotiateGo, hact]
        simp [calculate_reward]
      exact ⟨_, _, d + 1, "reject", 0, heq, by simp only [List.length_cons]; omega,
             Or.inr ⟨rfl, rfl⟩⟩
    | counter_low =>
      obtain ⟨ng', tr2, d', res, p, heq, hd, hres⟩ :=
        ih (counterLowOffer offer)
          (update_q_value (get_action ng
              (get_state service offer market rep ((rn : ℚ) / (maxR : ℚ)))
              (oracle rn).1 (oracle rn).2 true).1
            (get_state service offer market rep ((rn : ℚ) / (maxR : ℚ)))
            .counter_low (-(1/10)) none)
          (tr ++ [⟨get_state service offer market rep ((rn : ℚ) / (maxR : ℚ)),
                  .counter_low, -(1/10), none⟩])
          (d + 1)
      refine ⟨ng', ⟨get_state service offer market rep ((rn : ℚ) / (maxR : ℚ)),
                    .counter_low, -(1/10), none⟩ :: tr2, d', res, p, ?_, ?_, ?_⟩
      · simp only [negotiateGo, hact]
        rw [heq]
        simp
      · simp only [List.length_cons]
        omega
      · rcases hres with ⟨h1, h2⟩ | hr
        · refine Or.inl ⟨h1, ?_⟩
          rw [h2]
          simp [counterFold, applyCounterAction]
        · exact Or.inr hr
    | counter_high =>
      obtain ⟨ng', tr2, d', res, p, heq, hd, hres⟩ :=
        ih (counterHighOffer offer)
          (update_q_value (get_action ng
              (get_state service offer market rep ((rn : ℚ) / (maxR : ℚ)))
              (oracle rn).1 (oracle rn).2 true).1
            (get_state service offer market rep ((rn : ℚ) / (maxR : ℚ)))
            .counter_high (-(1/10)) none)
          (tr ++ [⟨get_state service offer market rep ((rn : ℚ) / (maxR : ℚ)),
                  .counter_high, -(1/10), none⟩])
          (d + 1)
      refine ⟨ng', ⟨get_state service offer market rep ((rn : ℚ) / (maxR : ℚ)),
                    .counter_high, -(1/10), none⟩ :: tr2, d', res, p, ?_, ?_, ?_⟩
      · simp only [negotiateGo, hact]
        rw [heq]
        simp
      · simp only [List.length_cons]
        omega
      · rcases hres with ⟨h1, h2⟩ | hr
        · refine Or.inl ⟨h1, ?_⟩
          rw [h2]
          simp [counterFold, applyCounterAction]
        · exact Or.inr hr

/-- C5: for `market_price ≥ 1`, every negotiation episode returns (no
exception), takes at most `max_rounds` decision points, and ends either
with ("accept", p) — where p is the initial offer transformed by exactly
the counter actions taken, which is the current offer also when
`max_rounds` is exhausted and the forced accept fires — or with
("reject", 0). -/
theorem C5_negotiate_termination :
    ∀ ng service (offer market : Int) (rep : ℚ) (maxR : ℕ) oracle, 1 ≤ market →
      ∃ ng' tr d res p,
        negotiateT ng service offer market rep maxR oracle = some (ng', tr, d, res, p) ∧
        negotiate ng service offer market rep maxR oracle = some (ng', res, p) ∧
        d ≤ maxR ∧
        (res = "accept" ∨ (res = "reject" ∧ p = 0)) ∧
        (res = "accept" → p = counterFold offer tr) := by
  intro ng service offer market rep maxR oracle hm
  obtain ⟨ng', tr2, d', res, p, heq, hd, hres⟩ :=
    negotiateGo_spec service market rep maxR oracle hm (List.range maxR) offer ng [] 0
  have heq' : negotiateT ng service offer market rep maxR oracle =
      some (ng', tr2, d', res, p) := by simpa [negotiateT] using heq
  refine ⟨ng', tr2, d', res, p, heq', by simp [negotiate, heq'], ?_, ?_, ?_⟩
  · simpa using hd
  · rcases hres with ⟨h1, _⟩ | hr
    · exact Or.inl h1
    · exact Or.inr hr
  · intro hacc
    rcases hres with ⟨_, h2⟩ | ⟨h1, _⟩
    · exact h2
    · exact absurd (h1.symm.trans hacc) (by decide)

/-- C5 witness: a concrete episode (deterministic greedy policy on a fresh
table accepts immediately). -/
theorem C5_negotiate_termination_witness :
    ∃ ng' tr d res p,
      negotiateT RLNegotiator.new "svc" 10 10 5 3 alwaysAccept = some (ng', tr, d, res, p) ∧
      negotiate RLNegotiator.new "svc" 10 10 5 3 alwaysAccept = some (ng', res, p) ∧
      d ≤ 3 ∧
      (res = "accept" ∨ (res = "reject" ∧ p = 0)) ∧
      (res = "accept" → p = counterFold 10 tr) :=
  C5_negotiate_termination RLNegotiator.new "svc" 10 10 5 3 alwaysAccept (by decide)

/-! ## C6: reward shaping buckets -/

/-- C6 (amended): with `market_price ≥ 1`, the terminal reward is −1 with no
deal and otherwise depends on the exact price ratio r = p/m: 1 for
r > 1.2, 1/2 for 1 < r ≤ 1.2, 0 for 0.8 < r ≤ 1, and −1/2 for r ≤ 0.8 — in
particular a ratio of exactly 1.2 yields 1/2 and a ratio of exactly 0.8
yields −1/2 (not 0, as the claim's last clause asserts). -/
theorem C6_reward_shaping :
    ∀ p m : Int, 1 ≤ m →
      calculate_reward p m false = some (-1) ∧
      ∃ r : ℚ, calculate_reward p m true = some r ∧
        (6/5 < (p:ℚ)/(m:ℚ) → r = 1) ∧
        (1 < (p:ℚ)/(m:ℚ) ∧ (p:ℚ)/(m:ℚ) ≤ 6/5 → r = 1/2) ∧
        (4/5 < (p:ℚ)/(m:ℚ) ∧ (p:ℚ)/(m:ℚ) ≤ 1 → r = 0) ∧
        ((p:ℚ)/(m:ℚ) ≤ 4/5 → r = -(1/2)) ∧
        ((p:ℚ)/(m:ℚ) = 6/5 → r = 1/2) ∧
        ((p:ℚ)/(m:ℚ) = 4/5 → r = -(1/2)) := by
  intro p m hm
  have hm0 : m ≠ 0 := by omega
  refine ⟨by simp [calculate_reward], _, calculate_reward_deal_some hm0, ?_, ?_, ?_, ?_, ?_, ?_⟩
  · intro h
    rw [if_pos h]
  · rintro ⟨h1, h2⟩
    rw [if_neg (by linarith), if_pos h1]
  · rintro ⟨h1, h2⟩
    rw [if_neg (by linarith), if_neg (by linarith), if_pos h1]
  · intro h
    rw [if_neg (by linarith), if_neg (by linarith), if_neg (by linarith)]
  · intro h
    rw [if_neg (by rw [h]; norm_num), if_pos (by rw [h]; norm_num)]
  · intro h
    rw [if_neg (by rw [h]; norm_num), if_neg (by rw [h]; norm_num),
        if_neg (by rw [h]; norm_num)]

/-- C6 counterexample: a deal at exactly 0.8 times the market price (4
against 5) is rewarded −1/2, not 0 as the claim's boundary clause states. -/
theorem C6_counterexample :
    calculate_reward 4 5 true = some (-(1/2)) ∧ (4:ℚ)/(5:ℚ) = 4/5 ∧ ((-(1/2) : ℚ) ≠ 0) := by
  refine ⟨by norm_num [calculate_reward], by norm_num, by norm_num⟩

/-- C6 witness: the buckets evaluated at concrete ratios 1.5, 1.2, 1.0,
0.8. -/
theorem C6_reward_shaping_witness :
    calculate_reward 3 2 false = some (-1) ∧
    calculate_reward 3 2 true = some 1 ∧
    calculate_reward 6 5 true = some (1/2) ∧
    calculate_reward 5 5 true = some 0 ∧
    calculate_reward 4 5 true = some (-(1/2)) := by
  obtain ⟨hf, r, hr, h1, h2, h3, h4, h5, h6⟩ := C6_reward_shaping 3 2 (by norm_num)
  obtain ⟨hf', r', hr', h1', h2', h3', h4', h5', h6'⟩ := C6_reward_shaping 6 5 (by norm_num)
  obtain ⟨hf2, r2, hr2, h12, h22, h32, h42, h52, h62⟩ := C6_reward_shaping 5 5 (by norm_num)
  obtain ⟨hf3, r3, hr3, h13, h23, h33, h43, h53, h63⟩ := C6_reward_shaping 4 5 (by norm_num)
  refine ⟨hf, ?_, ?_, ?_, ?_⟩
  · rw [hr, h1 (by norm_num)]
  · rw [hr', h5' (by norm_num)]
  · rw [hr2, h32 (by norm_num)]
  · rw [hr3, h63 (by norm_num)]

/-! ## C7: what the Q-update actually bootstraps from -/

theorem ensureState_lookup_self (q : List (String × ActionValues)) (s : String) :
    lookupKey (ensureState q s) s = some ((lookupKey q s).getD ActionValues.zero) := by
  cases h : lookupKey q s with
  | some v => simp [ensureState, h]
  | none => simp [ensureState, h, lookupKey_setKey]

theorem ensureState_lookup_ne {q : List (String × ActionValues)} {s t : String}
    (hne : t ≠ s) : lookupKey (ensureState q s) t = lookupKey q t := by
  cases h : lookupKey q s with
  | some v => simp [ensureState, h]
  | none => simp [ensureState, h, lookupKey_setKey, hne]

theorem ensureState_of_some {q : List (String × ActionValues)} {s : String}
    {v : ActionValues} (h : lookupKey q s = some v) : ensureState q s = q := by
  simp [ensureState, h]

theorem ensureState_idem (q : List (String × ActionValues)) (s : String) :
    ensureState (ensureState q s) s = ensureState q s :=
  ensureState_of_some (ensureState_lookup_self q s)

theorem ActionValues.get_set_self (v : ActionValues) (a : NAction) (x : ℚ) :
    (v.set a x).get a = x := by
  cases a <;> rfl

theorem update_q_value_ensure (ng : RLNegotiator) (s : String) (a : NAction) (r : ℚ) :
    update_q_value { ng with q_table := ensureState ng.q_table s } s a r none =
      update_q_value ng s a r none := by
  simp only [update_q_value, ensureState_idem]

theorem get_action_fst (ng : RLNegotiator) (s : String) (rnd : ℚ) (choice : NAction)
    (e : Bool) :
    (get_action ng s rnd choice e).1 = { ng with q_table := ensureState ng.q_table s } := by
  simp only [get_action]
  split <;> rfl

/-- The Q-value written by an update with no next state:
`Q(s,a) ← Q(s,a) + α·(r + γ·0 − Q(s,a))`. -/
theorem update_q_value_none_formula (ng : RLNegotiator) (s : String) (a : NAction) (r : ℚ) :
    qValue (update_q_value ng s a r none) s a =
      qValue ng s a + ng.learning_rate * (r + ng.discount_factor * 0 - qValue ng s a) := by
  simp only [update_q_value, qValue]
  rw [lookupKey_setKey]
  simp [ensureState_lookup_self, ActionValues.get_set_self]

/-- The Q-value written by an update with a next state:
`Q(s,a) ← Q(s,a) + α·(r + γ·max Q(next)·− Q(s,a))`, the maximum taken over
the next state's action values as held before the write. -/
theorem update_q_value_some_formula (ng : RLNegotiator) (s ns : String) (a : NAction)
    (r : ℚ) :
    qValue (update_q_value ng s a r (some ns)) s a =
      qValue ng s a +
        ng.learning_rate * (r + ng.discount_factor * stateMax ng ns - qValue ng s a) := by
  by_cases hns : ns = s
  · subst hns
    simp only [update_q_value, qValue, stateMax]
    rw [ensureState_idem, lookupKey_setKey]
    simp [ensureState_lookup_self, ActionValues.get_set_self]
  · have h1 : lookupKey (ensureState (ensureState ng.q_table s) ns) s =
        some ((lookupKey ng.q_table s).getD ActionValues.zero) := by
      rw [ensureState_lookup_ne (fun h => hns h.symm), ensureState_lookup_self]
    have h2 : lookupKey (ensureState (ensureState ng.q_table s) ns) ns =
        some ((lookupKey ng.q_table ns).getD ActionValues.zero) := by
      rw [ensureState_lookup_self, ensureState_lookup_ne hns]
    simp only [update_q_value, qValue, stateMax]
    rw [lookupKey_setKey]
    simp [h1, h2, ActionValues.get_set_self]

theorem negotiateGo_replay (service : String) (market : Int) (rep : ℚ) (maxR : ℕ)
    (oracle : ℕ → ℚ × NAction) :
    ∀ (rounds : List ℕ) (offer : Int) (ng : RLNegotiator) (tr : List QUpdate) (d : ℕ)
      (ng' : RLNegotiator) (tr' : List QUpdate) (d' : ℕ) (res : String) (p : Int),
      negotiateGo service market rep maxR oracle rounds offer ng tr d =
        some (ng', tr', d', res, p) →
      ∃ new, tr' = tr ++ new ∧ ng' = replayUpdates ng new ∧ ∀ u ∈ new, u.next_state = none := by
  intro rounds
  induction rounds with
  | nil =>
    intro offer ng tr d ng' tr' d' res p h
    simp only [negotiateGo] at h
    cases hr : calculate_reward offer market true with
    | none => rw [hr] at h; exact absurd h (by simp)
    | some r =>
      rw [hr] at h
      simp only [Option.some.injEq, Prod.mk.injEq] at h
      obtain ⟨h1, h2, _, _, _⟩ := h
      refine ⟨[⟨get_state service offer market rep 1, .accept, r, none⟩], h2.symm, ?_, by simp⟩
      rw [← h1]
      simp [replayUpdates]
  | cons rn rest ih =>
    intro offer ng tr d ng' tr' d' res p h
    simp only [negotiateGo] at h
    cases hact : (get_action ng
        (get_state service offer market rep ((rn : ℚ) / (maxR : ℚ)))
        (oracle rn).1 (oracle rn).2 true).2 with
    | accept =>
      rw [hact] at h
      cases hr : calculate_reward offer market true with
      | none => rw [hr] at h; exact absurd h (by simp)
      | some r =>
        rw [hr] at h
        simp only [Option.some.injEq, Prod.mk.injEq] at h
        obtain ⟨h1, h2, _, _, _⟩ := h
        refine ⟨[⟨get_state service offer market rep ((rn : ℚ) / (maxR : ℚ)),
                .accept, r, none⟩], h2.symm, ?_, by simp⟩
        rw [← h1, get_action_fst, update_q_value_ensure]
        simp [replayUpdates]
    | reject =>
      rw [hact] at h
      have hr : calculate_reward offer market false = some (-1) := by simp [calculate_reward]
      rw [hr] at h
      simp only [Option.some.injEq, Prod.mk.injEq] at h
      obtain ⟨h1, h2, _, _, _⟩ := h
      refine ⟨[⟨get_state service offer market rep ((rn : ℚ) / (maxR : ℚ)),
              .reject, -1, none⟩], h2.symm, ?_, by simp⟩
      rw [← h1, get_action_fst, update_q_value_ensure]
      simp [replayUpdates]
    | counter_low =>
      rw [hact] at h
      obtain ⟨new', hnew', hng', hnone'⟩ := ih _ _ _ _ _ _ _ _ _ h
      refine ⟨⟨get_state service offer market rep ((rn : ℚ) / (maxR : ℚ)),
              .counter_low, -(1/10), none⟩ :: new', by simpa using hnew', ?_, ?_⟩
      · rw [hng', get_action_fst, update_q_value_ensure]
        simp [replayUpdates]
      · intro u hu
        rcases List.mem_cons.1 hu with h' | h'
        · rw [h']
        · exact hnone' u h'
    | counter_high =>
      rw [hact] at h
      obtain ⟨new', hnew', hng', hnone'⟩ := ih _ _ _ _ _ _ _ _ _ h
      refine ⟨⟨get_state service offer market rep ((rn : ℚ) / (maxR : ℚ)),
              .counter_high, -(1/10), none⟩ :: new', by simpa using hnew', ?_, ?_⟩
      · rw [hng', get_action_fst, update_q_value_ensure]
        simp [replayUpdates]
      · intro u hu
        rcases List.mem_cons.1 hu with h' | h'
        · rw [h']
        · exact hnone' u h'

/-- C7 (amended): `update_q_value` itself implements the Q-learning rule —
with a supplied next state it bootstraps from that state's maximal action
value, and with none it bootstraps from 0 — but `negotiate` invokes it with
`next_state = None` after *every* action (terminal and counter alike), so
inside an episode the next-state term is always 0 and the final table is
exactly the fold of zero-bootstrap updates over the episode's update log. -/
theorem C7_q_update :
    (∀ ng s a r, qValue (update_q_value ng s a r none) s a =
        qValue ng s a + ng.learning_rate * (r + ng.discount_factor * 0 - qValue ng s a)) ∧
    (∀ ng s ns a r, qValue (update_q_value ng s a r (some ns)) s a =
        qValue ng s a +
          ng.learning_rate * (r + ng.discount_factor * stateMax ng ns - qValue ng s a)) ∧
    (∀ ng service (offer market : Int) (rep : ℚ) (maxR : ℕ) oracle ng' tr d res p,
        negotiateT ng service offer market rep maxR oracle = some (ng', tr, d, res, p) →
        ng' = replayUpdates ng tr ∧ ∀ u ∈ tr, u.next_state = none) := by
  refine ⟨update_q_value_none_formula,
          fun ng s ns a r => update_q_value_some_formula ng s ns a r,
          ?_⟩
  intro ng service offer market rep maxR oracle ng' tr d res p h
  obtain ⟨new, hnew, hng, hnone⟩ :=
    negotiateGo_replay service market rep maxR oracle (List.range maxR) offer ng [] 0
      ng' tr d res p (by simpa [negotiateT] using h)
  simp only [List.nil_append] at hnew
  subst hnew
  exact ⟨hng, hnone⟩

/-- C7 counterexample: the claim is false on the code.  Seed the default
negotiator so that the round-1 state "svc_high_high_medium" has maximal
action value 1/2, then run the episode (offer 10, market 10, reputation 5,
2 rounds) that counters high in round 0 and accepts in round 1.  The
counter action's visited pair ends at Q = −1/100 = 0 + 0.1·(−0.1 + 0.9·0 − 0),
the zero-bootstrap value, whereas the claim's formula with the next round's
maximum predicts 0 + 0.1·(−0.1 + 0.9·(1/2) − 0) = 7/200 ≠ −1/100. -/
theorem C7_counterexample :
    (negotiateT c7seed "svc" 10 10 5 2 c7oracle).map
        (fun r => (r.2.2.2.1, r.2.2.2.2)) = some ("accept", 12) ∧
    c7final.map (fun g => qValue g "svc_fair_high_low" .counter_high) = some (-(1/100)) ∧
    qValue c7seed "svc_fair_high_low" .counter_high = 0 ∧
    stateMax c7seed "svc_high_high_medium" = 1/2 ∧
    (-(1/100) : ℚ) ≠
      0 + (1/10) * (-(1/10) + (9/10) * (1/2) - 0) := by
  refine ⟨?_, ?_, ?_, ?_, by norm_num⟩
  · norm_num +decide [negotiateT, negotiateGo, c7seed, c7oracle, update_q_value, get_action,
      ensureState, get_state, lookupKey, setKey, calculate_reward, counterHighOffer,
      counterLowOffer, pyInt, ActionValues.zero, ActionValues.get, ActionValues.set,
      ActionValues.maxVal, ActionValues.argmax, pickArg, qmax, RLNegotiator.new,
      List.range_succ, applyCounterAction]
  · norm_num +decide [c7final, negotiateT, negotiateGo, c7seed, c7oracle, update_q_value,
      get_action, ensureState, get_state, lookupKey, setKey, calculate_reward,
      counterHighOffer, counterLowOffer, pyInt, qValue, ActionValues.zero,
      ActionValues.get, ActionValues.set, ActionValues.maxVal, ActionValues.argmax,
      pickArg, qmax, RLNegotiator.new, List.range_succ, applyCounterAction]
  · norm_num +decide [qValue, c7seed, update_q_value, ensureState, lookupKey, setKey,
      ActionValues.zero, ActionValues.get, ActionValues.set, ActionValues.maxVal,
      qmax, RLNegotiator.new]
  · norm_num +decide [stateMax, c7seed, update_q_value, ensureState, lookupKey, setKey,
      ActionValues.zero, ActionValues.get, ActionValues.set, ActionValues.maxVal,
      qmax, RLNegotiator.new]

/-- C7 witness: the episode-fold characterisation applied to a concrete
one-round episode. -/
theorem C7_q_update_witness :
    replayUpdates RLNegotiator.new [⟨"svc_fair_high_low", NAction.accept, 0, none⟩] =
      replayUpdates RLNegotiator.new [⟨"svc_fair_high_low", NAction.accept, 0, none⟩] ∧
    ∀ u ∈ [(⟨"svc_fair_high_low", NAction.accept, 0, none⟩ : QUpdate)],
      u.next_state = none :=
  C7_q_update.2.2 RLNegotiator.new "svc" 10 10 5 1 alwaysAccept
    (replayUpdates RLNegotiator.new [⟨"svc_fair_high_low", NAction.accept, 0, none⟩])
    [⟨"svc_fair_high_low", NAction.accept, 0, none⟩] 1 "accept" 10 (by
      norm_num +decide [negotiateT, negotiateGo, alwaysAccept, update_q_value, get_action,
        ensureState, get_state, lookupKey, setKey, calculate_reward, replayUpdates,
        ActionValues.zero, ActionValues.get, ActionValues.set, ActionValues.maxVal,
        ActionValues.argmax, pickArg, qmax, RLNegotiator.new, List.range_succ])

/-! ## C10: division-by-zero guard asymmetry -/

/-- C10: the state derivation guards its price ratio with
`max(market_price, 1)` (so `market_price = 0` buckets exactly like 1), and
with `market_price ≥ 1` a negotiation episode always returns; but the
terminal reward divides by `market_price` unguarded, so `market_price = 0`
raises `ZeroDivisionError` on every accepting path — exhibited by the
always-accepting exploration oracle. -/
theorem C10_market_price_guard :
    (∀ (offer : Int) (rep u : ℚ) (service : String),
        get_state service offer 0 rep u = get_state service offer 1 rep u) ∧
    (∀ p : Int, calculate_reward p 0 true = none) ∧
    (∀ ng service (offer market : Int) (rep : ℚ) (maxR : ℕ) oracle, 1 ≤ market →
        (negotiate ng service offer market rep maxR oracle).isSome) ∧
    (∀ ng service (offer : Int) (rep : ℚ) (maxR : ℕ), 0 < ng.epsilon →
        negotiate ng service offer 0 rep maxR alwaysAccept = none) := by
  refine ⟨?_, ?_, ?_, ?_⟩
  · intro offer rep u service
    norm_num [get_state]
  · intro p
    simp [calculate_reward]
  · intro ng service offer market rep maxR oracle hm
    obtain ⟨ng', tr2, d', res, p, heq, _, _⟩ :=
      negotiateGo_spec service market rep maxR oracle hm (List.range maxR) offer ng [] 0
    simp [negotiate, negotiateT, heq]
  · intro ng service offer rep maxR hε
    cases maxR with
    | zero =>
      simp [negotiate, negotiateT, negotiateGo, calculate_reward]
    | succ n =>
      have hrange : List.range (n + 1) = 0 :: List.map Nat.succ (List.range n) :=
        List.range_succ_eq_map n
      simp only [negotiate, negotiateT, hrange]
      simp [negotiateGo, get_action, hε, alwaysAccept, calculate_reward]

/-- C10 witness: totality at market price 10 and failure at market price 0,
evaluated concretely. -/
theorem C10_market_price_guard_witness :
    (negotiate RLNegotiator.new "svc" 10 10 5 3 alwaysAccept).isSome ∧
    negotiate RLNegotiator.new "svc" 10 0 5 3 alwaysAccept = none :=
  ⟨C10_market_price_guard.2.2.1 RLNegotiator.new "svc" 10 10 5 3 alwaysAccept (by decide),
   C10_market_price_guard.2.2.2 RLNegotiator.new "svc" 10 5 3
     (by norm_num [RLNegotiator.new])⟩

/-! ## C9: lazy initialisation versus KeyError -/

/-- C9 (amended): `RLNegotiator.update_q_value` lazily initialises unseen
states — after any call the updated state is present, and the call is total
for every state key — but the Selector updates have no lazy initialisation:
`MultiArmedBandit.update_reward` succeeds exactly when the arm is present in
its (constructor-populated) tables, and `ContextualBandit.update_weights`
succeeds exactly when the arm has a weight vector of the context's length;
on any other arm both raise `KeyError`. -/
theorem C9_lazy_init :
    (∀ ng s a r ns, (lookupKey (update_q_value ng s a r ns).q_table s).isSome) ∧
    (∀ ng s a r, (lookupKey (update_q_value ng s a r none).q_table s).isSome) ∧
    (∀ b agent r, (update_reward b agent r).isSome ↔
        ((lookupKey b.rewards agent).isSome ∧ (lookupKey b.cumulative_reward agent).isSome ∧
         (lookupKey b.selection_count agent).isSome)) ∧
    (∀ cb agent c r lr, (update_weights cb agent c r lr).isSome ↔
        (∃ w, lookupKey cb.weights agent = some w ∧ w.length = c.length)) := by
  refine ⟨?_, ?_, ?_, ?_⟩
  · intro ng s a r ns
    simp [update_q_value, lookupKey_setKey]
  · intro ng s a r
    simp [update_q_value, lookupKey_setKey]
  · intro b agent r
    cases h1 : lookupKey b.rewards agent <;>
      cases h2 : lookupKey b.cumulative_reward agent <;>
        cases h3 : lookupKey b.selection_count agent <;>
          simp [update_reward, h1, h2, h3]
  · intro cb agent c r lr
    cases h1 : lookupKey cb.weights agent with
    | none => simp [update_weights, h1]
    | some w =>
      by_cases h2 : w.length = c.length <;> simp [update_weights, h1, h2]

/-- C9 counterexample: the claim is false for the bandit updates.  On the
freshly constructed single-arm bandit, `update_reward("X", 1.0)` raises
`KeyError` instead of lazily initialising arm "X"; likewise
`ContextualBandit.update_weights` on the unseen arm "X"; the negotiator's
`update_q_value` by contrast lazily creates the unseen state. -/
theorem C9_counterexample :
    update_reward (MultiArmedBandit.new ["A"]) "X" 1 = none ∧
    update_weights cbSample "X" [1, 0, 0, 0] 1 (1/100) = none ∧
    (lookupKey (update_q_value RLNegotiator.new "unseen_state" .accept 1 none).q_table
      "unseen_state").isSome := by
  refine ⟨by decide, by decide, by decide⟩

/-! ## C8: UCB exhaustive initial exploration -/

theorem pickMaxPair_mem : ∀ (t : List (String × WithTop ℚ)) (p : String × WithTop ℚ),
    pickMaxPair p t ∈ p :: t := by
  intro t
  induction t with
  | nil => intro p; simp [pickMaxPair]
  | cons q t ih =>
    intro p
    by_cases h : q.2 > p.2
    · have h2 := ih (if q.2 > p.2 then q else p)
      rw [if_pos h] at h2
      simp only [pickMaxPair, if_pos h]
      rcases List.mem_cons.1 h2 with h3 | h3
      · simp [h3]
      · simp [List.mem_cons_of_mem _ (List.mem_cons_of_mem _ h3)]
    · have h2 := ih (if q.2 > p.2 then q else p)
      rw [if_neg h] at h2
      simp only [pickMaxPair, if_neg h]
      rcases List.mem_cons.1 h2 with h3 | h3
      · simp [h3]
      · simp [List.mem_cons_of_mem _ (List.mem_cons_of_mem _ h3)]

theorem pickMaxPair_le : ∀ (t : List (String × WithTop ℚ)) (p x : String × WithTop ℚ),
    x ∈ p :: t → x.2 ≤ (pickMaxPair p t).2 := by
  intro t
  induction t with
  | nil =>
    intro p x hx
    simp at hx
    simp [pickMaxPair, hx]
  | cons q t ih =>
    intro p x hx
    have hb1 : p.2 ≤ (if q.2 > p.2 then q else p).2 := by
      by_cases h : q.2 > p.2
      · rw [if_pos h]; exact le_of_lt h
      · rw [if_neg h]
    have hb2 : q.2 ≤ (if q.2 > p.2 then q else p).2 := by
      by_cases h : q.2 > p.2
      · rw [if_pos h]
      · rw [if_neg h]; exact le_of_not_lt h
    have hbm : (if q.2 > p.2 then q else p).2 ≤ (pickMaxPair (if q.2 > p.2 then q else p) t).2 :=
      ih (if q.2 > p.2 then q else p) _ (List.mem_cons_self _ _)
    have hpm : pickMaxPair p (q :: t) = pickMaxPair (if q.2 > p.2 then q else p) t := rfl
    rcases List.mem_cons.1 hx with h3 | h3
    · rw [hpm, h3]
      exact le_trans hb1 hbm
    · rcases List.mem_cons.1 h3 with h4 | h4
      · rw [hpm, h4]
        exact le_trans hb2 hbm
      · rw [hpm]
        exact ih _ _ (List.mem_cons_of_mem _ h4)

theorem scoresFor_eq {f : String → Option (WithTop ℚ)} :
    ∀ (l : List String), (∀ a ∈ l, (f a).isSome) →
      ∃ sc, scoresFor f l = some sc ∧ sc.map Prod.fst = l ∧
        ∀ pr ∈ sc, f pr.1 = some pr.2 := by
  intro l
  induction l with
  | nil => intro _; exact ⟨[], rfl, rfl, by simp⟩
  | cons a t ih =>
    intro hall
    obtain ⟨v, hv⟩ := Option.isSome_iff_exists.1 (hall a (List.mem_cons_self a t))
    obtain ⟨sc, hsc, hmap, hvals⟩ := ih (fun x hx => hall x (List.mem_cons_of_mem a hx))
    refine ⟨(a, v) :: sc, ?_, by simp [hmap], ?_⟩
    · simp [scoresFor, hv, hsc]
    · intro pr hpr
      rcases List.mem_cons.1 hpr with h3 | h3
      · rw [h3]
        exact hv
      · exact hvals pr h3

theorem ucbScore_isSome {conf : ℕ → ℕ → ℚ} {b : MultiArmedBandit} {agent : String}
    (h1 : (lookupKey b.selection_count agent).isSome)
    (h2 : (lookupKey b.cumulative_reward agent).isSome) :
    (ucbScore conf b agent).isSome := by
  obtain ⟨cnt, hcnt⟩ := Option.isSome_iff_exists.1 h1
  obtain ⟨cum, hcum⟩ := Option.isSome_iff_exists.1 h2
  by_cases h : cnt = 0 <;> simp [ucbScore, hcnt, hcum, h]

theorem ucbScore_top_count {conf : ℕ → ℕ → ℚ} {b : MultiArmedBandit} {agent : String}
    (h : ucbScore conf b agent = some ⊤) : lookupKey b.selection_count agent = some 0 := by
  cases hcnt : lookupKey b.selection_count agent with
  | none => rw [ucbScore, hcnt] at h; exact absurd h (by simp)
  | some cnt =>
    by_cases h0 : cnt = 0
    · rw [h0]
    · rw [ucbScore, hcnt] at h
      simp only [if_neg h0] at h
      cases hcum : lookupKey b.cumulative_reward agent with
      | none => rw [hcum] at h; exact absurd h (by simp)
      | some cum =>
        rw [hcum] at h
        simp only [Option.some.injEq] at h
        exact absurd h (WithTop.coe_ne_top)

theorem ucbScore_of_count_zero {conf : ℕ → ℕ → ℚ} {b : MultiArmedBandit} {agent : String}
    (h : lookupKey b.selection_count agent = some 0) : ucbScore conf b agent = some ⊤ := by
  simp [ucbScore, h]

theorem select_ucb1_untried {conf : ℕ → ℕ → ℚ} {b : MultiArmedBandit} (c : String)
    (hkeys : ∀ a ∈ b.agents, (lookupKey b.selection_count a).isSome ∧
      (lookupKey b.cumulative_reward a).isSome)
    (htot : b.total_selections ≠ 0)
    {u : String} (hu : u ∈ b.agents) (hu0 : lookupKey b.selection_count u = some 0) :
    ∃ sel, select_ucb1 conf b c = some sel ∧ sel ∈ b.agents ∧
      lookupKey b.selection_count sel = some 0 := by
  obtain ⟨sc, hsc, hmap, hvals⟩ := @scoresFor_eq (ucbScore conf b) b.agents
    (fun a ha => ucbScore_isSome (hkeys a ha).1 (hkeys a ha).2)
  cases sc with
  | nil =>
    rw [← hmap] at hu
    simp at hu
  | cons p t =>
    have hsel : select_ucb1 conf b c = some (pickMaxPair p t).1 := by
      simp [select_ucb1, htot, hsc]
    have hpm_mem : pickMaxPair p t ∈ p :: t := pickMaxPair_mem t p
    have hpmA : (pickMaxPair p t).1 ∈ b.agents := by
      rw [← hmap]
      exact List.mem_map_of_mem Prod.fst hpm_mem
    obtain ⟨pru, hpru_mem, hpru1⟩ := List.mem_map.1 (by rw [hmap]; exact hu :
      u ∈ (p :: t).map Prod.fst)
    have hpru_top : pru.2 = ⊤ := by
      have h1 := hvals pru hpru_mem
      rw [hpru1] at h1
      rw [ucbScore_of_count_zero hu0] at h1
      simpa using h1.symm
    have htop : (pickMaxPair p t).2 = ⊤ := by
      have hle := pickMaxPair_le t p pru hpru_mem
      rw [hpru_top] at hle
      exact top_le_iff.1 hle
    have hscore : ucbScore conf b (pickMaxPair p t).1 = some ⊤ := by
      have h1 := hvals _ hpm_mem
      rw [htop] at h1
      exact h1
    exact ⟨(pickMaxPair p t).1, hsel, hpmA, ucbScore_top_count hscore⟩

theorem lookupKey_map_self {α : Type} (g : String → α) :
    ∀ (l : List String) (x : String), x ∈ l →
      lookupKey (l.map (fun a => (a, g a))) x = some (g x) := by
  intro l
  induction l with
  | nil => intro x hx; simp at hx
  | cons a t ih =>
    intro x hx
    by_cases h : x = a
    · subst h
      simp [lookupKey]
    · rcases List.mem_cons.1 hx with h2 | h2
      · exact absurd h2 h
      · simpa [lookupKey, h] using ih x h2

theorem InvB_new (agents : List String) : InvB agents [] (MultiArmedBandit.new agents) := by
  refine ⟨rfl, rfl, ?_, ?_, ?_⟩
  · intro a ha
    simpa [MultiArmedBandit.new] using lookupKey_map_self (fun _ => (0 : ℕ)) agents a ha
  · intro a ha
    simp [MultiArmedBandit.new, lookupKey_map_self (fun _ => ([] : List ℚ)) agents a ha]
  · intro a ha
    simp [MultiArmedBandit.new, lookupKey_map_self (fun _ => (0 : ℚ)) agents a ha]

theorem InvB_select (conf : ℕ → ℕ → ℚ) {agents S : List String} {b : MultiArmedBandit}
    (hinv : InvB agents S b) (hndA : agents.Nodup)
    (hSsub : ∀ x ∈ S, x ∈ agents) (hlt : S.length < agents.length)
    {c : String} (hc : c ∈ agents) :
    ∃ sel, select_ucb1 conf b c = some sel ∧ sel ∈ agents ∧ sel ∉ S := by
  obtain ⟨hag, htot, hcount, hrew, hcum⟩ := hinv
  by_cases hS0 : S.length = 0
  · have hS : S = [] := List.length_eq_zero.1 hS0
    refine ⟨c, ?_, hc, by simp [hS]⟩
    simp [select_ucb1, htot, hS0]
  · have htot' : b.total_selections ≠ 0 := by rw [htot]; exact hS0
    have hex : ∃ u ∈ agents, u ∉ S := by
      by_contra hall
      push_neg at hall
      have hsub : agents ⊆ S := fun x hx => hall x hx
      have := (hndA.subperm hsub).length_le
      omega
    obtain ⟨u, hu, huS⟩ := hex
    have hu0 : lookupKey b.selection_count u = some 0 := by
      have := hcount u hu
      rwa [if_neg huS] at this
    obtain ⟨sel, hsel, hselA, hsel0⟩ := select_ucb1_untried c
      (fun a ha => ⟨by
          obtain ⟨cnt, hcnt⟩ : ∃ cnt, lookupKey b.selection_count a = some cnt :=
            ⟨_, hcount a (hag ▸ ha)⟩
          simp [hcnt], by
          have := hcum a (hag ▸ ha)
          exact this⟩)
      htot' (hag.symm ▸ hu) hu0
    refine ⟨sel, hsel, hag ▸ hselA, ?_⟩
    intro hmem
    have := hcount sel (hag ▸ hselA)
    rw [if_pos hmem] at this
    rw [hsel0] at this
    simp at this

theorem InvB_update {agents S : List String} {b : MultiArmedBandit}
    (hinv : InvB agents S b) {a : String} (ha : a ∈ agents) (haS : a ∉ S) (r : ℚ) :
    ∃ b', update_reward b a r = some b' ∧ InvB agents (a :: S) b' := by
  obtain ⟨hag, htot, hcount, hrew, hcum⟩ := hinv
  have hcnt0 : lookupKey b.selection_count a = some 0 := by
    have := hcount a ha
    rwa [if_neg haS] at this
  obtain ⟨rs, hrs⟩ := Option.isSome_iff_exists.1 (hrew a ha)
  obtain ⟨cm, hcm⟩ := Option.isSome_iff_exists.1 (hcum a ha)
  refine ⟨{ b with
      rewards := setKey b.rewards a (rs ++ [r]),
      cumulative_reward := setKey b.cumulative_reward a (cm + r),
      selection_count := setKey b.selection_count a 1,
      total_selections := b.total_selections + 1 }, ?_, ?_⟩
  · simp [update_reward, hrs, hcm, hcnt0]
  refine ⟨hag, by simpa using htot, ?_, ?_, ?_⟩
  · intro x hx
    rw [lookupKey_setKey]
    by_cases hxa : x = a
    · subst hxa
      simp
    · rw [if_neg hxa, hcount x hx]
      have hmem : (x ∈ a :: S) ↔ (x ∈ S) := by simp [List.mem_cons, hxa]
      simp [hmem]
  · intro x hx
    rw [lookupKey_setKey]
    by_cases hxa : x = a
    · simp [hxa]
    · rw [if_neg hxa]
      exact hrew x hx
  · intro x hx
    rw [lookupKey_setKey]
    by_cases hxa : x = a
    · simp [hxa]
    · rw [if_neg hxa]
      exact hcum x hx

theorem runUCB_perm_aux (conf : ℕ → ℕ → ℚ) (choices : ℕ → String) (rews : ℕ → ℚ)
    (agents : List String) (hndA : agents.Nodup) (hch : ∀ i, choices i ∈ agents) :
    ∀ (n i : ℕ) (S : List String) (b : MultiArmedBandit),
      InvB agents S b → (∀ x ∈ S, x ∈ agents) → S.length + n = agents.length →
      ∃ bf sel, runUCB conf choices rews b i n = some (bf, sel) ∧
        sel.length = n ∧ sel.Nodup ∧ (∀ x ∈ sel, x ∈ agents ∧ x ∉ S) := by
  intro n
  induction n with
  | zero =>
    intro i S b hinv _ _
    exact ⟨b, [], rfl, rfl, by simp, by simp⟩
  | succ n ih =>
    intro i S b hinv hSsub hlen
    obtain ⟨sel1, hsel1, hselA, hselS⟩ :=
      InvB_select conf hinv hndA hSsub (by omega) (hch i)
    obtain ⟨b', hb', hinv'⟩ := InvB_update hinv hselA hselS (rews i)
    obtain ⟨bf, sel, hrun, hlen', hnd', hprops⟩ :=
      ih (i + 1) (sel1 :: S) b' hinv'
        (by
          intro x hx
          rcases List.mem_cons.1 hx with h | h
          · rw [h]; exact hselA
          · exact hSsub x h)
        (by simp only [List.length_cons]; omega)
    refine ⟨bf, sel1 :: sel, ?_, by simp [hlen'], ?_, ?_⟩
    · simp [runUCB, hsel1, hb', hrun]
    · refine List.nodup_cons.2 ⟨?_, hnd'⟩
      intro hmem
      exact (hprops sel1 hmem).2 (List.mem_cons_self _ _)
    · intro x hx
      rcases List.mem_cons.1 hx with h | h
      · rw [h]; exact ⟨hselA, hselS⟩
      · have := hprops x h
        exact ⟨this.1, fun hxS => this.2 (List.mem_cons_of_mem _ hxS)⟩

/-- C8: starting from a fresh bandit over distinct arms, with
`update_reward` called for the selected arm after every selection, the
first N UCB selections are exactly the N arms, each exactly once (in some
order); and in any bandit state with at least one selection recorded and
some untried arm, `select_ucb1` returns an arm with selection count 0.
The real-valued confidence term `c·sqrt(ln total/count)` enters only
through finite scores, so the result is proved for every value `conf` it
could take. -/
theorem C8_ucb_exploration :
    (∀ (agents : List String) (conf : ℕ → ℕ → ℚ) (choices : ℕ → String) (rews : ℕ → ℚ),
        agents.Nodup → (∀ i, choices i ∈ agents) →
        ∃ bf sel,
          runUCB conf choices rews (MultiArmedBandit.new agents) 0 agents.length =
            some (bf, sel) ∧ sel.Perm agents) ∧
    (∀ (conf : ℕ → ℕ → ℚ) (b : MultiArmedBandit) (c : String),
        (∀ a ∈ b.agents, (lookupKey b.selection_count a).isSome ∧
          (lookupKey b.cumulative_reward a).isSome) →
        b.total_selections ≠ 0 →
        ∀ u ∈ b.agents, lookupKey b.selection_count u = some 0 →
        ∃ sel, select_ucb1 conf b c = some sel ∧ sel ∈ b.agents ∧
          lookupKey b.selection_count sel = some 0) := by
  constructor
  · intro agents conf choices rews hndA hch
    obtain ⟨bf, sel, hrun, hlen, hnd, hprops⟩ :=
      runUCB_perm_aux conf choices rews agents hndA hch agents.length 0 []
        (MultiArmedBandit.new agents) (InvB_new agents) (by simp) (by simp)
    refine ⟨bf, sel, hrun, ?_⟩
    have hsub : sel ⊆ agents := fun x hx => (hprops x hx).1
    exact (hnd.subperm hsub).perm_of_length_le (le_of_eq hlen.symm)
  · intro conf b c hkeys htot u hu hu0
    exact select_ucb1_untried c hkeys htot hu hu0

/-- C8 witness: three fresh arms are exhausted by the first three
selections, and an untried arm is preferred in a part-explored state. -/
theorem C8_ucb_exploration_witness :
    (∃ bf sel,
        runUCB (fun _ _ => 0) (fun _ => "A") (fun _ => 1)
            (MultiArmedBandit.new ["A", "B", "C"]) 0 3 = some (bf, sel) ∧
        sel.Perm ["A", "B", "C"]) ∧
    (∃ sel, select_ucb1 (fun _ _ => 0) c8bandit "A" = some sel ∧ sel ∈ c8bandit.agents ∧
        lookupKey c8bandit.selection_count sel = some 0) :=
  ⟨C8_ucb_exploration.1 ["A", "B", "C"] (fun _ _ => 0) (fun _ => "A") (fun _ => 1)
      (by decide) (fun i => by show "A" ∈ ["A", "B", "C"]; decide),
   C8_ucb_exploration.2 (fun _ _ => 0) c8bandit "A" (by decide) (by decide) "B"
      (by decide) (by decide)⟩
